import Mathlib

/-!
# Flash cards: a shallow embedding of `main.go`

The program keeps two process-wide variables, `deck` and `logs`, reads lines
from standard input and prints messages.  The embedding passes them around as
one explicit `State` value, together with the unread input, the text printed
so far and the files on disk.

Runs that do not come back to the caller are results of kind `Abort`:
`log.Fatalln` (exit status 1), a run-time panic, and a loop that never ends.
-/

namespace FlashCards

/-! ## Data model -/

/-- Go `int` on a 64-bit platform: the value of `x` after wrap-around. -/
def wrapInt (x : Int) : Int := (x + 2 ^ 63) % 2 ^ 64 - 2 ^ 63

/-- The statement `card.Mistakes++`. -/
def bump (m : Int) : Int := wrapInt (m + 1)

/-- The struct `Card`. -/
structure Card where
  Term : String
  Definition : String
  Mistakes : Int
  deriving DecidableEq, Repr

/-- What the operating system holds at a path. -/
inductive Node where
  /-- Nothing exists at the path. -/
  | missing
  /-- A regular file and its content. -/
  | regular (content : String)
  /-- Something that can neither be read nor opened for writing. -/
  | blocked
  deriving DecidableEq, Repr

/-- Ways in which a call does not return to its caller. -/
inductive Abort where
  /-- The call reached `log.Fatalln`. -/
  | fatal
  /-- A run-time panic: index or slice bounds out of range. -/
  | panic
  /-- The call loops forever. -/
  | hang
  deriving DecidableEq, Repr

/-- The package `encoding/json` as the program uses it. -/
structure Json where
  /-- The call `json.Marshal(deck)`; `none` is an error. -/
  marshal : List Card → Option String
  /-- The call `json.Unmarshal(file, &newDeck)` on a `Deck` value; `none` is an error. -/
  unmarshal : String → Option (List Card)
  /-- The call `json.Unmarshal(contents, &newDeck)` on a nil `*Deck`, its error
  dropped; `none` leaves the pointer nil. -/
  unmarshalPtr : String → Option (List Card)

/-- Something that happens at the terminal. -/
inductive Event where
  /-- A call of `bufio.Reader.ReadString` in `getInput` took a line; `input` is
  the line trimmed. -/
  | read (input : String)
  /-- The call `fmt.Println(msg)`. -/
  | println (msg : String)
  /-- A call of `fmt.Printf` that writes `text`. -/
  | printf (text : String)
  deriving DecidableEq, Repr

/-- The variables `deck` and `logs` with the world around them. -/
structure State where
  /-- A state from all its parts. -/
  make ::
  /-- The slice `deck.Cards`. -/
  cards : List Card
  /-- The slice `logs`. -/
  logs : List String
  /-- Lines of standard input not read yet. -/
  stdin : List String
  /-- Text written to standard output, one entry per write. -/
  stdout : List String
  /-- The file system. -/
  files : String → Node
  /-- What has happened at the terminal, reads and writes, oldest first. -/
  terminal : List Event

/-- A state in which nothing has happened at the terminal yet. -/
def State.mk (cards : List Card) (logs stdin stdout : List String) (files : String → Node) :
    State :=
  { cards := cards, logs := logs, stdin := stdin, stdout := stdout, files := files,
    terminal := [] }

/-! ## Terminal input and output -/

/-- The predicate `unicode.IsSpace`. -/
def isSpace (c : Char) : Bool :=
  let n := c.toNat
  (9 ≤ n && n ≤ 13) || n == 32 || n == 0x85 || n == 0xA0 || n == 0x1680 ||
  (0x2000 ≤ n && n ≤ 0x200A) || n == 0x2028 || n == 0x2029 || n == 0x202F ||
  n == 0x205F || n == 0x3000

/-- The function `strings.TrimSpace`. -/
def trimSpace (s : String) : String :=
  String.mk ((s.toList.dropWhile isSpace).reverse.dropWhile isSpace).reverse

/-- The function `printToTerminal`. -/
def printToTerminal (msg : String) (s : State) : State :=
  { s with
    logs := s.logs ++ [msg],
    stdout := s.stdout ++ [msg ++ "\n"],
    terminal := s.terminal ++ [.println msg] }

/-- The function `getInput`.  Standard input is taken line by line, as a
terminal hands it over: each call gets the next line, and at the end of the
input `ReadString` gives the empty string, its error dropped. -/
def getInput (s : State) : String × State :=
  match s.stdin with
  | [] => ("", { s with logs := s.logs ++ [""], terminal := s.terminal ++ [.read ""] })
  | line :: rest =>
    let input := trimSpace line
    (input, { s with
      stdin := rest,
      logs := s.logs ++ [input],
      terminal := s.terminal ++ [.read input] })

/-- The number written by a run of decimal digits. -/
def digitsValue (ds : List Char) : Nat :=
  ds.foldl (fun n c => n * 10 + (c.toNat - 48)) 0

/-- The function `strconv.Atoi` with its error dropped. -/
def atoi (s : String) : Int :=
  let cs := s.toList
  let neg := cs.head? == some (Char.ofNat 45)
  let ds := if cs.head? == some (Char.ofNat 45) || cs.head? == some (Char.ofNat 43)
    then cs.drop 1 else cs
  if ds.isEmpty || !ds.all Char.isDigit then 0
  else if neg then -(Int.ofNat (min (digitsValue ds) (2 ^ 63)))
  else Int.ofNat (min (digitsValue ds) (2 ^ 63 - 1))

/-! ## Deck queries and card creation -/

/-- The function `checkIfCardExists`. -/
def checkIfCardExists (cards : List Card) (criteria : String) : Bool :=
  match cards with
  | [] => false
  | card :: rest =>
    if card.Term = criteria ∨ card.Definition = criteria then true
    else checkIfCardExists rest criteria

/-- One of the two retry loops of `createCard`: while `cur` exists in the deck,
print `msg cur` and read again.  The fuel counts the tests of the condition. -/
def retryLoop (msg : String → String) : Nat → String → State → Except Abort (String × State)
  | 0, _, _ => .error .hang
  | fuel + 1, cur, s =>
    if checkIfCardExists s.cards cur then
      let s1 := printToTerminal (msg cur) s
      let r := getInput s1
      retryLoop msg fuel r.1 r.2
    else .ok (cur, s)

/-- The message of the term loop of `createCard`. -/
def termExistsMsg (term : String) : String :=
  "The card \"" ++ term ++ "\" already exists. Try again:"

/-- The message of the definition loop of `createCard`. -/
def definitionExistsMsg (definition : String) : String :=
  "The definition \"" ++ definition ++ "\" already exists. Try again:"

/-- The function `createCard`.  After the unread input is used up every read
gives the empty string, so a loop that has not ended two tests later never
ends. -/
def createCard (s : State) : Except Abort (Card × State) := do
  let s1 := printToTerminal "The card:" s
  let r1 := getInput s1
  let (term, s2) ← retryLoop termExistsMsg (r1.2.stdin.length + 2) r1.1 r1.2
  let s3 := printToTerminal "The definition of the card:" s2
  let r2 := getInput s3
  let (definition, s4) ← retryLoop definitionExistsMsg (r2.2.stdin.length + 2) r2.1 r2.2
  pure ({ Term := term, Definition := definition, Mistakes := 0 }, s4)

/-! ## Files -/

/-- The function `readDeck`: the cards read, or `none` for the error it returns
after printing `File not found.`; malformed content ends the process. -/
def readDeck (J : Json) (fileName : String) (s : State) :
    Except Abort (Option (List Card) × State) :=
  match s.files fileName with
  | .regular file =>
    match J.unmarshal file with
    | none => .error .fatal
    | some newCards => .ok (some newCards, s)
  | _ => .ok (none, printToTerminal "File not found." s)

/-- The function `readFromFile`: `os.OpenFile` with flags
`O_RDWR|O_CREATE|O_TRUNC`, which empties the file at once.  The handle it
returns is the path of the file, positioned at its start. -/
def readFromFile (fileName : String) (s : State) : Except Abort State :=
  match s.files fileName with
  | .blocked => .error .fatal
  | _ => .ok { s with files := fun p => if p = fileName then .regular "" else s.files p }

/-- The content of an open file, as `file.Stat` and `buf.ReadFrom(file)` see it. -/
def fileContent (fileName : String) (s : State) : String :=
  match s.files fileName with
  | .regular content => content
  | _ => ""

/-- The function `saveInFile`.  Reading moves the handle to the end of the
file, so `fmt.Fprintln` writes after what has been read. -/
def saveInFile (J : Json) (fileName : String) (s : State) : Except Abort State := do
  let s1 ← readFromFile fileName s
  let contents := fileContent fileName s1
  let newDeck : Option (List Card) :=
    if contents.length > 0 then J.unmarshalPtr contents else none
  let cards :=
    match newDeck with
    | some newCards => if newCards.length > 0 then s1.cards ++ newCards else s1.cards
    | none => s1.cards
  match J.marshal cards with
  | none => .error .fatal
  | some res =>
    pure { s1 with
      cards := cards,
      files := fun p => if p = fileName then .regular (contents ++ res ++ "\n") else s1.files p }

/-- The function `getFileName`. -/
def getFileName (s : State) : String × State :=
  getInput (printToTerminal "File name:" s)

/-! ## Removing a card -/

/-- The loop of `removeCard`.  The `range` clause fixes the backing array and
the number of rounds when the loop starts; `arr` is that array, `len` the
current length of `deck.Cards`, which shares it, and `i` the loop index.
A match at index `i` runs `append(deck.Cards[:i], deck.Cards[i+1:]...)`, which
moves the elements `i+1 .. len-1` one place down inside the array and panics
when `i+1` exceeds `len`. -/
def removeLoop (term : String) : Nat → Nat → List Card → Nat → Except Abort (List Card × Nat)
  | 0, _, arr, len => .ok (arr, len)
  | rounds + 1, i, arr, len =>
    match arr[i]? with
    | none => .error .panic
    | some card =>
      if card.Term = term then
        if i + 1 ≤ len then
          removeLoop term rounds (i + 1)
            (arr.take i ++ (arr.take len).drop (i + 1) ++ arr.drop (len - 1)) (len - 1)
        else .error .panic
      else removeLoop term rounds (i + 1) arr len

/-- The function `removeCard`. -/
def removeCard (term : String) (s : State) : Except Abort State := do
  let (arr, len) ← removeLoop term s.cards.length 0 s.cards s.cards.length
  pure (printToTerminal "The card has been removed.\n" { s with cards := arr.take len })

/-- The message of `removeAction` for a card that is not there. -/
def noSuchCardMsg (term : String) : String :=
  "Can\x27t remove \"" ++ term ++ "\": there is no such card."

/-- The function `removeAction`. -/
def removeAction (s : State) : Except Abort State :=
  let r := getInput (printToTerminal "Which card?" s)
  if checkIfCardExists r.2.cards r.1 then removeCard r.1 r.2
  else .ok (printToTerminal (noSuchCardMsg r.1) r.2)

/-! ## Adding, importing and exporting -/

/-- The message of `addAction`. -/
def addedMsg (card : Card) : String :=
  "The pair (\"" ++ card.Term ++ "\":\"" ++ card.Definition ++ "\") has been added."

/-- The function `addAction`. -/
def addAction (s : State) : Except Abort State := do
  let (card, s1) ← createCard s
  pure (printToTerminal (addedMsg card) { s1 with cards := s1.cards ++ [card] })

/-- The message of `importAction`. -/
def loadedMsg (n : Nat) : String := toString n ++ " cards have been loaded."

/-- The function `importAction`. -/
def importAction (J : Json) (fileName : String) (s : State) : Except Abort State := do
  let (newDeck, s1) ← readDeck J fileName s
  match newDeck with
  | none => pure s1
  | some newCards =>
    let s2 := printToTerminal (loadedMsg newCards.length) s1
    pure { s2 with cards := s2.cards ++ newCards }

/-- The message of `exportAction`. -/
def savedMsg (n : Nat) : String := toString n ++ " cards have been saved."

/-- The function `exportAction`. -/
def exportAction (J : Json) (fileName : String) (s : State) : Except Abort State := do
  let s1 ← saveInFile J fileName s
  pure (printToTerminal (savedMsg s1.cards.length) s1)

/-! ## The quiz -/

/-- The function `getTimesToAsk`. -/
def getTimesToAsk (s : State) : Int × State :=
  let r := getInput (printToTerminal "How many times to ask?" s)
  (atoi r.1, r.2)

/-- The prompt of one quiz round. -/
def askPrompt (term : String) : String := "Print the definition of \"" ++ term ++ "\":"

/-- The report for an answer that is the definition of no card. -/
def wrongMsg (definition : String) : String :=
  "Wrong. The right answer is \"" ++ definition ++ "\"."

/-- The report for an answer that is the definition of a card. -/
def crossMsg (definition term : String) : String :=
  "Wrong. The right answer is \"" ++ definition ++
    "\", but your definition is correct for \"" ++ term ++ "\"."

/-- The index `askAction` selects in round `i` for a deck of `n` cards. -/
def askIndex (i n : Nat) : Nat := if i ≥ n then i % n else i

/-- One round of the loop of `askAction`, for loop variable `i`. -/
def askIter (i : Nat) (s : State) : Except Abort State :=
  let index := askIndex i s.cards.length
  match s.cards[index]? with
  | none => .error .panic
  | some card =>
    let r := getInput (printToTerminal (askPrompt card.Term) s)
    let answer := r.1
    let s1 := r.2
    if answer = card.Definition then .ok (printToTerminal "Correct!" s1)
    else
      let bumped := s1.cards.set index { card with Mistakes := bump card.Mistakes }
      match s1.cards.find? (fun fCard => decide (fCard.Definition = answer)) with
      | some fCard =>
        .ok (printToTerminal (crossMsg card.Definition fCard.Term) { s1 with cards := bumped })
      | none => .ok (printToTerminal (wrongMsg card.Definition) { s1 with cards := bumped })

/-- The loop of `askAction`: `rounds` rounds starting at loop variable `i`. -/
def askLoop : Nat → Nat → State → Except Abort State
  | 0, _, s => .ok s
  | rounds + 1, i, s => do
    let s1 ← askIter i s
    askLoop rounds (i + 1) s1

/-- The function `askAction`. -/
def askAction (s : State) : Except Abort State :=
  let r := getTimesToAsk s
  if r.2.cards.length = 0 then .ok (printToTerminal "Not enough cards..." r.2)
  else askLoop r.1.toNat 0 r.2

/-- The function `resetAction`. -/
def resetAction (s : State) : State :=
  printToTerminal "Card statistics have been reset."
    { s with cards := s.cards.map fun card => { card with Mistakes := 0 } }

/-! ## A codec for plain documents

`Json` is whatever `encoding/json` does.  To run the program on concrete files
the development also carries `plainJson`, which covers the documents
`json.Marshal` writes for decks whose strings need no escape sequence, with
`omitempty` on all three fields.  Outside that fragment it reports an error. -/

namespace Plain

/-- Characters a JSON string cannot hold as they are, or that `json.Marshal`
writes as an escape sequence. -/
def needsEscape (c : Char) : Bool :=
  let n := c.toNat
  n < 32 || n == 34 || n == 92 || n == 60 || n == 62 || n == 38 || n == 0x2028 || n == 0x2029

/-- Whether a string is written as it is. -/
def isPlain (s : String) : Bool := s.toList.all fun c => !needsEscape c

/-- The members of the object written for one card. -/
def cardMembers (card : Card) : List String :=
  (if card.Term = "" then [] else ["\"term\":\"" ++ card.Term ++ "\""]) ++
  (if card.Definition = "" then [] else ["\"definition\":\"" ++ card.Definition ++ "\""]) ++
  (if card.Mistakes = 0 then [] else ["\"mistakes\":" ++ toString card.Mistakes])

/-- The object written for one card. -/
def encodeCard (card : Card) : String :=
  "\x7b" ++ ",".intercalate (cardMembers card) ++ "\x7d"

/-- The document written for a deck. -/
def encode (cards : List Card) : Option String :=
  if cards.all fun card => isPlain card.Term && isPlain card.Definition then
    some ("\x7b\"cards\":[" ++ ",".intercalate (cards.map encodeCard) ++ "]\x7d")
  else none

/-- Reads the literal `lit` off the front of the input. -/
def expect (lit : String) (cs : List Char) : Option (List Char) :=
  if lit.toList.isPrefixOf cs then some (cs.drop lit.length) else none

/-- Reads a string after its opening quote, up to and including the closing one. -/
def stringBody : List Char → Option (List Char × List Char)
  | [] => none
  | c :: cs =>
    if c.toNat = 34 then some ([], cs)
    else if c.toNat < 32 || c.toNat == 92 then none
    else (stringBody cs).map fun r => (c :: r.1, r.2)

/-- Reads an integer that fits the type `int`. -/
def intLiteral (cs : List Char) : Option (Int × List Char) :=
  let neg := cs.head? == some (Char.ofNat 45)
  let body := if neg then cs.drop 1 else cs
  let ds := body.takeWhile Char.isDigit
  let rest := body.dropWhile Char.isDigit
  if ds.isEmpty || (ds.length > 1 && ds.head? == some (Char.ofNat 48)) then none
  else
    let v : Int := if neg then -(Int.ofNat (digitsValue ds)) else Int.ofNat (digitsValue ds)
    if -(2 ^ 63) ≤ v ∧ v < 2 ^ 63 then some (v, rest) else none

/-- Reads one member of a card object into `card`. -/
def member (card : Card) (cs : List Char) : Option (Card × List Char) :=
  match expect "\"term\":\"" cs with
  | some r => (stringBody r).map fun v => ({ card with Term := String.mk v.1 }, v.2)
  | none =>
    match expect "\"definition\":\"" cs with
    | some r => (stringBody r).map fun v => ({ card with Definition := String.mk v.1 }, v.2)
    | none =>
      match expect "\"mistakes\":" cs with
      | some r => (intLiteral r).map fun v => ({ card with Mistakes := v.1 }, v.2)
      | none => none

/-- Reads the members of a card object, up to and including the closing brace. -/
def members : Nat → Card → List Char → Option (Card × List Char)
  | 0, _, _ => none
  | fuel + 1, card, cs =>
    match member card cs with
    | none => none
    | some (card1, c :: rest) =>
      if c.toNat = 44 then members fuel card1 rest
      else if c.toNat = 125 then some (card1, rest)
      else none
    | some (_, []) => none

/-- Reads a card object. -/
def object (cs : List Char) : Option (Card × List Char) :=
  match expect "\x7b" cs with
  | none => none
  | some r =>
    match expect "\x7d" r with
    | some rest => some ({ Term := "", Definition := "", Mistakes := 0 }, rest)
    | none => members r.length { Term := "", Definition := "", Mistakes := 0 } r

/-- Reads the elements of the array of cards, up to and including the closing bracket. -/
def elements : Nat → List Char → Option (List Card × List Char)
  | 0, _ => none
  | fuel + 1, cs =>
    match object cs with
    | none => none
    | some (card, c :: rest) =>
      if c.toNat = 44 then (elements fuel rest).map fun r => (card :: r.1, r.2)
      else if c.toNat = 93 then some ([card], rest)
      else none
    | some (_, []) => none

/-- Reads a whole document. -/
def decode (doc : String) : Option (List Card) :=
  match expect "\x7b\"cards\":[" doc.toList with
  | none => none
  | some r =>
    let body := match expect "]" r with
      | some rest => some ([], rest)
      | none => elements r.length r
    match body with
    | none => none
    | some (cards, rest) =>
      match expect "\x7d" rest with
      | none => none
      | some tail =>
        if tail.all fun c => c.toNat == 32 || c.toNat == 9 || c.toNat == 10 || c.toNat == 13
        then some cards else none

end Plain

/-- The codec for plain documents. -/
def plainJson : Json where
  marshal := Plain.encode
  unmarshal := Plain.decode
  unmarshalPtr := Plain.decode

/-! ## Sequences of actions -/

/-- The actions of `makeActionForInput` that work on the deck. -/
inductive Action where
  | add
  | remove
  | importFile
  | exportFile
  | ask
  | resetStats
  deriving DecidableEq, Repr

/-- The case of `makeActionForInput` for an action. -/
def Action.run (J : Json) : Action → State → Except Abort State
  | .add, s => addAction s
  | .remove, s => removeAction s
  | .importFile, s => let r := getFileName s; importAction J r.1 r.2
  | .exportFile, s => let r := getFileName s; exportAction J r.1 r.2
  | .ask, s => askAction s
  | .resetStats, s => .ok (resetAction s)

/-- Runs actions one after the other, stopping at the first that does not return. -/
def runActions (J : Json) : List Action → State → Except Abort State
  | [], s => .ok s
  | a :: rest, s => do
    let s1 ← a.run J s
    runActions J rest s1

/-- The state `main` sets up: an empty deck and an empty log. -/
def initial (stdin : List String) (files : String → Node) : State :=
  { cards := [], logs := [], stdin := stdin, stdout := [], files := files, terminal := [] }

/-- The term and the definition of a card. -/
def Card.key (card : Card) : String × String := (card.Term, card.Definition)

/-- Two cards share a term or a definition with each other. -/
def Clash (a b : Card) : Prop :=
  a.Term = b.Term ∨ a.Term = b.Definition ∨ a.Definition = b.Term ∨
    a.Definition = b.Definition

instance (a b : Card) : Decidable (Clash a b) := by unfold Clash; infer_instance

/-- The uniqueness constraint of the deck: no two cards at different places clash. -/
def Unique (cards : List Card) : Prop := cards.Pairwise fun a b => ¬ Clash a b

instance (cards : List Card) : Decidable (Unique cards) := by unfold Unique; infer_instance

/-- A file system with one regular file. -/
def oneFile (path content : String) : String → Node :=
  fun p => if p = path then .regular content else .missing

/-! ## Notions used to state the quiz properties -/

/-- The answer `getInput` returns in round `t` of a quiz whose first answer is
the first line of `stdin`: the line trimmed, the empty string past the end. -/
def answerAt (stdin : List String) (t : Nat) : String :=
  (stdin[t]?.map trimSpace).getD ""

/-- Among the rounds `t < rounds` of a quiz over `n` cards whose loop variable
starts at `i`, the number of those that select index `j` and get an answer
other than `definition`. -/
def missCount (n : Nat) (stdin : List String) (i rounds j : Nat) (definition : String) : Nat :=
  ((List.range rounds).filter fun t =>
    decide ((i + t) % n = j ∧ answerAt stdin t ≠ definition)).length

/-- The card `card` with its counter set to `m`. -/
def Card.withMistakes (card : Card) (m : Int) : Card := { card with Mistakes := m }

/-- The deck of the scenarios: capital/Paris and river/Nile. -/
def scenarioDeck : List Card := [⟨"capital", "Paris", 0⟩, ⟨"river", "Nile", 0⟩]

/-- A session with the given deck and unread input: nothing logged, nothing
printed, no files. -/
def session (cards : List Card) (stdin : List String) : State :=
  { cards := cards, logs := [], stdin := stdin, stdout := [], files := fun _ => .missing,
    terminal := [] }

/-! ## The hardest card -/

/-- The first loop of `hardestCardAction`: the largest counter above zero, or zero. -/
def highestMistakes (cards : List Card) : Int :=
  cards.foldl (fun highest card => if card.Mistakes > highest then card.Mistakes else highest) 0

/-- The assignment `mistakes[card.Term] = card` on a map kept as the list of its
values, each stored under its own term. -/
def mapPut (mistakes : List Card) (card : Card) : List Card :=
  if mistakes.any (fun e => decide (e.Term = card.Term)) then
    mistakes.map fun e => if e.Term = card.Term then card else e
  else mistakes ++ [card]

/-- The second loop of `hardestCardAction`: the map of the cards whose counter is `highest`. -/
def hardestMap (cards : List Card) (highest : Int) : List Card :=
  cards.foldl (fun mistakes card => if card.Mistakes = highest then mapPut mistakes card
    else mistakes) []

/-- The message of `hardestCardAction` for an empty deck or a deck without mistakes. -/
def noErrorsMsg : String := "There are no cards with errors."

/-- The message of `hardestCardAction` for a map with one entry. -/
def hardestCardMsg (term : String) (n : Int) : String :=
  "The hardest card is \"" ++ term ++ "\". You have " ++ toString n ++ " errors answering it."

/-- The message of `hardestCardAction` for a map with several entries. -/
def hardestCardsMsg (printMistakes : String) (n : Int) : String :=
  "The hardest cards are " ++ printMistakes ++ ". You have " ++ toString n ++
    " errors answering them."

/-- The string `printMistakes` after the last loop of `hardestCardAction`. -/
def joinTerms (visited : List Card) : String :=
  visited.foldl (fun acc mistake => acc ++ ("\"" ++ mistake.Term ++ "\", ")) ""

/-- The function `hardestCardAction`.  The argument `mapOrder` gives, for the
values of a map, the order in which a `range` loop visits them. -/
def hardestCardAction (mapOrder : List Card → List Card) (s : State) : Except Abort State :=
  if s.cards.length = 0 then .ok (printToTerminal noErrorsMsg s)
  else
    let highest := highestMistakes s.cards
    if highest = 0 then .ok (printToTerminal noErrorsMsg s)
    else
      let mistakes := hardestMap s.cards highest
      if mistakes.length = 1 then
        match mapOrder mistakes with
        | [] => .error .panic
        | key :: _ => .ok (printToTerminal (hardestCardMsg key.Term key.Mistakes) s)
      else
        let visited := mapOrder mistakes
        let printMistakes := joinTerms visited
        let mistakesCount := visited.foldl (fun _ mistake => mistake.Mistakes) (0 : Int)
        if printMistakes.length = 0 then .error .panic
        else
          .ok (printToTerminal
            (hardestCardsMsg (String.mk printMistakes.toList.dropLast) mistakesCount) s)

/-! ## The log and the dispatcher -/

/-- The function `logAction`.  The argument `marshalLogs` is `json.Marshal(logs)`
as text, empty when it fails, since the error is dropped. -/
def logAction (marshalLogs : List String → String) (s : State) : Except Abort State := do
  let r := getFileName s
  let s1 ← readFromFile r.1 r.2
  let l := marshalLogs s1.logs
  let s2 : State :=
    { s1 with files := fun p => if p = r.1 then .regular (l ++ "\n") else s1.files p }
  pure (printToTerminal "The log has been saved." s2)

/-- What a run of the program depends on besides its state. -/
structure Env where
  /-- The package `encoding/json` for decks. -/
  json : Json
  /-- The call `json.Marshal(logs)`. -/
  marshalLogs : List String → String
  /-- The order in which `range` visits the values of a map; a permutation of them. -/
  mapOrder : List Card → List Card
  /-- The value of `*importFileName`. -/
  importFileName : String
  /-- The value of `*exportFileName`. -/
  exportFileName : String

/-- The commands `makeActionForInput` knows. -/
def commands : List String :=
  ["add", "remove", "import", "export", "ask", "log", "hardest card", "reset stats", "exit"]

/-- The function `makeActionForInput`.  The message for an unknown command goes
to the output with `fmt.Printf`, without a line end and past the log. -/
def makeActionForInput (E : Env) (input : String) (s : State) : Except Abort State :=
  if input = "add" then addAction s
  else if input = "remove" then removeAction s
  else if input = "import" then
    let r := getFileName s
    importAction E.json r.1 r.2
  else if input = "export" then
    let r := getFileName s
    exportAction E.json r.1 r.2
  else if input = "ask" then askAction s
  else if input = "log" then logAction E.marshalLogs s
  else if input = "hardest card" then hardestCardAction E.mapOrder s
  else if input = "reset stats" then .ok (resetAction s)
  else if input = "exit" then do
    let s1 ← if E.importFileName ≠ "" then importAction E.json E.importFileName s else pure s
    let s2 ← if E.exportFileName ≠ "" then exportAction E.json E.exportFileName s1 else pure s1
    pure (printToTerminal "Bye bye!" s2)
  else .ok { s with
    stdout := s.stdout ++ [input ++ " not implemented"],
    terminal := s.terminal ++ [.printf (input ++ " not implemented")] }

/-! ## Notions used to state the remaining properties -/

/-- The report of a quiz round that selects a card with definition `definition`
and reads `answer`. -/
def roundReport (cards : List Card) (definition answer : String) : String :=
  if answer = definition then "Correct!"
  else
    match cards.find? (fun fCard => decide (fCard.Definition = answer)) with
    | some fCard => crossMsg definition fCard.Term
    | none => wrongMsg definition

/-- The term of the card at index `j`, empty past the end of the deck. -/
def termAt (cards : List Card) (j : Nat) : String :=
  (cards[j]?.map fun card => card.Term).getD ""

/-- The definition of the card at index `j`, empty past the end of the deck. -/
def definitionAt (cards : List Card) (j : Nat) : String :=
  (cards[j]?.map fun card => card.Definition).getD ""

/-- The results of the first `n` calls of `getInput` on the unread input `stdin`. -/
def reads (stdin : List String) (n : Nat) : List String :=
  (List.range n).map (answerAt stdin)

/-- The entry an event leaves in the log when it is recorded: the line read,
or the message handed to `fmt.Println`.  A `fmt.Printf` leaves none. -/
def Event.entry : Event → Option String
  | .read input => some input
  | .println msg => some msg
  | .printf _ => none

/-- What an event writes to standard output. -/
def Event.output : Event → Option String
  | .read _ => none
  | .println msg => some (msg ++ "\n")
  | .printf text => some text

/-- The line an event takes from standard input, trimmed. -/
def Event.input : Event → Option String
  | .read input => some input
  | .println _ => none
  | .printf _ => none

/-- Between the states `s` and `s'` the events `events` happened at the
terminal, each a read or a message printed with a line end, and the log grew
by the entries of these events in their order.  The events are what happened
to the rest of the world: their outputs are what standard output received and
their inputs are the lines taken from standard input. -/
def Logged (s s' : State) : Prop :=
  ∃ (events : List Event),
    s'.terminal = s.terminal ++ events ∧
    s'.logs = s.logs ++ events.filterMap Event.entry ∧
    (∀ e ∈ events, e.entry ≠ none) ∧
    s'.stdout = s.stdout ++ events.filterMap Event.output ∧
    events.filterMap Event.input = reads s.stdin (events.filterMap Event.input).length ∧
    s'.stdin = s.stdin.drop (events.filterMap Event.input).length

/-! ## A codec for all strings

The codec `textJson` covers every deck of the model: strings are written with
the escape sequences `json.Marshal` uses (as Go 1.22 and later write them;
earlier versions write `\u0008` and `\u000c` for backspace and form feed, which
read back as the same characters), and read back with the escape sequences of
JSON.  What is read are the documents `json.Marshal` writes: escape sequences
for surrogate halves, white space between the tokens and members other than the
three of a card, none of which it writes, are read as an error. -/

namespace Text

/-- The digit `json.Marshal` writes for a number below 16. -/
def hexDigit (n : Nat) : Char := "0123456789abcdef".toList.getD n '0'

/-- What `json.Marshal` writes for one character of a string. -/
def escapeChar (c : Char) : List Char :=
  let n := c.toNat
  if n = 34 then [Char.ofNat 92, Char.ofNat 34]
  else if n = 92 then [Char.ofNat 92, Char.ofNat 92]
  else if n = 8 then [Char.ofNat 92, 'b']
  else if n = 12 then [Char.ofNat 92, 'f']
  else if n = 10 then [Char.ofNat 92, 'n']
  else if n = 13 then [Char.ofNat 92, 'r']
  else if n = 9 then [Char.ofNat 92, 't']
  else if n < 32 ∨ n = 60 ∨ n = 62 ∨ n = 38 then
    [Char.ofNat 92, 'u', '0', '0', hexDigit (n / 16), hexDigit (n % 16)]
  else if n = 0x2028 then [Char.ofNat 92, 'u', '2', '0', '2', '8']
  else if n = 0x2029 then [Char.ofNat 92, 'u', '2', '0', '2', '9']
  else [c]

/-- What `json.Marshal` writes between the quotes for a string. -/
def escape (cs : List Char) : List Char := cs.flatMap escapeChar

/-- The string `s` as `json.Marshal` writes it, quotes included. -/
def quote (s : String) : String := "\"" ++ String.mk (escape s.toList) ++ "\""

/-- The members of the object written for one card; `omitempty` drops an
empty string and a counter that is 0. -/
def cardMembers (card : Card) : List String :=
  (if card.Term = "" then [] else ["\"term\":" ++ quote card.Term]) ++
  (if card.Definition = "" then [] else ["\"definition\":" ++ quote card.Definition]) ++
  (if card.Mistakes = 0 then [] else ["\"mistakes\":" ++ toString card.Mistakes])

/-- The object written for one card. -/
def encodeCard (card : Card) : String :=
  "\x7b" ++ ",".intercalate (cardMembers card) ++ "\x7d"

/-- The document written for a deck. -/
def encode (cards : List Card) : String :=
  "\x7b\"cards\":[" ++ ",".intercalate (cards.map encodeCard) ++ "]\x7d"

/-- The value of a hexadecimal digit. -/
def hexValue (c : Char) : Option Nat :=
  let n := c.toNat
  if 48 ≤ n ∧ n ≤ 57 then some (n - 48)
  else if 97 ≤ n ∧ n ≤ 102 then some (n - 87)
  else if 65 ≤ n ∧ n ≤ 70 then some (n - 55)
  else none

/-- The character a two-character escape sequence stands for. -/
def unescape (e : Char) : Option Char :=
  let n := e.toNat
  if n = 34 then some (Char.ofNat 34)
  else if n = 92 then some (Char.ofNat 92)
  else if n = 47 then some (Char.ofNat 47)
  else if n = 98 then some (Char.ofNat 8)
  else if n = 102 then some (Char.ofNat 12)
  else if n = 110 then some (Char.ofNat 10)
  else if n = 114 then some (Char.ofNat 13)
  else if n = 116 then some (Char.ofNat 9)
  else none

/-- Reads a string after its opening quote, up to and including the closing
one.  The fuel counts the characters and escape sequences read. -/
def stringBody : Nat → List Char → Option (List Char × List Char)
  | 0, _ => none
  | _ + 1, [] => none
  | fuel + 1, c :: cs =>
    if c.toNat = 34 then some ([], cs)
    else if c.toNat = 92 then
      match cs with
      | [] => none
      | e :: cs1 =>
        if e.toNat = 117 then
          match cs1 with
          | h1 :: h2 :: h3 :: h4 :: cs2 =>
            match hexValue h1, hexValue h2, hexValue h3, hexValue h4 with
            | some v1, some v2, some v3, some v4 =>
              let r := ((v1 * 16 + v2) * 16 + v3) * 16 + v4
              if 0xD800 ≤ r ∧ r < 0xE000 then none
              else (stringBody fuel cs2).map fun v => (Char.ofNat r :: v.1, v.2)
            | _, _, _, _ => none
          | _ => none
        else
          match unescape e with
          | none => none
          | some ch => (stringBody fuel cs1).map fun v => (ch :: v.1, v.2)
    else if c.toNat < 32 then none
    else (stringBody fuel cs).map fun v => (c :: v.1, v.2)

/-- Reads one member of a card object into `card`. -/
def member (card : Card) (cs : List Char) : Option (Card × List Char) :=
  match Plain.expect "\"term\":\"" cs with
  | some r => (stringBody r.length r).map fun v => ({ card with Term := String.mk v.1 }, v.2)
  | none =>
    match Plain.expect "\"definition\":\"" cs with
    | some r =>
      (stringBody r.length r).map fun v => ({ card with Definition := String.mk v.1 }, v.2)
    | none =>
      match Plain.expect "\"mistakes\":" cs with
      | some r => (Plain.intLiteral r).map fun v => ({ card with Mistakes := v.1 }, v.2)
      | none => none

/-- Reads the members of a card object, up to and including the closing brace. -/
def members : Nat → Card → List Char → Option (Card × List Char)
  | 0, _, _ => none
  | fuel + 1, card, cs =>
    match member card cs with
    | none => none
    | some (card1, c :: rest) =>
      if c.toNat = 44 then members fuel card1 rest
      else if c.toNat = 125 then some (card1, rest)
      else none
    | some (_, []) => none

/-- Reads a card object. -/
def object (cs : List Char) : Option (Card × List Char) :=
  match Plain.expect "\x7b" cs with
  | none => none
  | some r =>
    match Plain.expect "\x7d" r with
    | some rest => some ({ Term := "", Definition := "", Mistakes := 0 }, rest)
    | none => members r.length { Term := "", Definition := "", Mistakes := 0 } r

/-- Reads the elements of the array of cards, up to and including the closing bracket. -/
def elements : Nat → List Char → Option (List Card × List Char)
  | 0, _ => none
  | fuel + 1, cs =>
    match object cs with
    | none => none
    | some (card, c :: rest) =>
      if c.toNat = 44 then (elements fuel rest).map fun r => (card :: r.1, r.2)
      else if c.toNat = 93 then some ([card], rest)
      else none
    | some (_, []) => none

/-- Reads a whole document. -/
def decode (doc : String) : Option (List Card) :=
  match Plain.expect "\x7b\"cards\":[" doc.toList with
  | none => none
  | some r =>
    let body := match Plain.expect "]" r with
      | some rest => some ([], rest)
      | none => elements r.length r
    match body with
    | none => none
    | some (cards, rest) =>
      match Plain.expect "\x7d" rest with
      | none => none
      | some tail =>
        if tail.all fun c => c.toNat == 32 || c.toNat == 9 || c.toNat == 10 || c.toNat == 13
        then some cards else none

end Text

/-- The codec for all strings. -/
def textJson : Json where
  marshal := fun cards => some (Text.encode cards)
  unmarshal := Text.decode
  unmarshalPtr := Text.decode

/-! ## Strings as bytes

A Go string is a sequence of bytes, and `json.Marshal` reads it as UTF-8.  The
strings of the model are sequences of Unicode characters: they are the Go
strings that are valid UTF-8.  `Raw` carries cards whose strings are sequences
of bytes, and what `json.Marshal` writes for them: a byte that starts no UTF-8
encoding is written as the escape sequence of U+FFFD, everything else as
`Text.escapeChar` writes it. -/

namespace Raw

/-- A card whose strings are sequences of bytes. -/
structure Card where
  Term : List Nat
  Definition : List Nat
  Mistakes : Int
  deriving DecidableEq, Repr

/-- Whether `b` is a continuation byte of UTF-8. -/
def continuation (b : Nat) : Bool := decide (0x80 ≤ b ∧ b ≤ 0xBF)

/-- The first character of a byte string and the number of bytes of its
encoding, as `utf8.DecodeRuneInString` finds them; `none` when the first byte
starts no encoding, which Go reports as `RuneError` of width 1. -/
def decodeRune : List Nat → Option (Char × Nat)
  | [] => none
  | b0 :: rest =>
    if b0 < 0x80 then some (Char.ofNat b0, 1)
    else if 0xC2 ≤ b0 ∧ b0 ≤ 0xDF then
      match rest with
      | b1 :: _ =>
        if continuation b1 then some (Char.ofNat ((b0 - 0xC0) * 64 + (b1 - 0x80)), 2) else none
      | _ => none
    else if 0xE0 ≤ b0 ∧ b0 ≤ 0xEF then
      match rest with
      | b1 :: b2 :: _ =>
        let low := if b0 = 0xE0 then 0xA0 else 0x80
        let high := if b0 = 0xED then 0x9F else 0xBF
        if low ≤ b1 ∧ b1 ≤ high ∧ continuation b2 then
          some (Char.ofNat (((b0 - 0xE0) * 64 + (b1 - 0x80)) * 64 + (b2 - 0x80)), 3)
        else none
      | _ => none
    else if 0xF0 ≤ b0 ∧ b0 ≤ 0xF4 then
      match rest with
      | b1 :: b2 :: b3 :: _ =>
        let low := if b0 = 0xF0 then 0x90 else 0x80
        let high := if b0 = 0xF4 then 0x8F else 0xBF
        if low ≤ b1 ∧ b1 ≤ high ∧ continuation b2 ∧ continuation b3 then
          some (Char.ofNat ((((b0 - 0xF0) * 64 + (b1 - 0x80)) * 64 + (b2 - 0x80)) * 64 +
            (b3 - 0x80)), 4)
        else none
      | _ => none
    else none

/-- What `json.Marshal` writes between the quotes for a byte string.  The fuel
counts the bytes. -/
def escape : Nat → List Nat → List Char
  | 0, _ => []
  | _ + 1, [] => []
  | fuel + 1, b :: bs =>
    match decodeRune (b :: bs) with
    | some (c, size) => Text.escapeChar c ++ escape fuel (bs.drop (size - 1))
    | none => [Char.ofNat 92, 'u', 'f', 'f', 'f', 'd'] ++ escape fuel bs

/-- The byte string `bs` as `json.Marshal` writes it, quotes included. -/
def quote (bs : List Nat) : String := "\"" ++ String.mk (escape bs.length bs) ++ "\""

/-- The members of the object written for one card; `omitempty` drops an
empty string and a counter that is 0. -/
def cardMembers (card : Card) : List String :=
  (if card.Term = [] then [] else ["\"term\":" ++ quote card.Term]) ++
  (if card.Definition = [] then [] else ["\"definition\":" ++ quote card.Definition]) ++
  (if card.Mistakes = 0 then [] else ["\"mistakes\":" ++ toString card.Mistakes])

/-- The object written for one card. -/
def encodeCard (card : Card) : String :=
  "\x7b" ++ ",".intercalate (cardMembers card) ++ "\x7d"

/-- The document written for a deck. -/
def encode (cards : List Card) : String :=
  "\x7b\"cards\":[" ++ ",".intercalate (cards.map encodeCard) ++ "]\x7d"

/-- The UTF-8 encoding of a character. -/
def utf8 (c : Char) : List Nat :=
  let n := c.toNat
  if n < 0x80 then [n]
  else if n < 0x800 then [0xC0 + n / 64, 0x80 + n % 64]
  else if n < 0x10000 then [0xE0 + n / 4096, 0x80 + n / 64 % 64, 0x80 + n % 64]
  else [0xF0 + n / 262144, 0x80 + n / 4096 % 64, 0x80 + n / 64 % 64, 0x80 + n % 64]

/-- The bytes of a string of the model. -/
def bytes (s : String) : List Nat := s.toList.flatMap utf8

/-- The bytes of a card of the model. -/
def ofCard (card : FlashCards.Card) : Card :=
  { Term := bytes card.Term, Definition := bytes card.Definition, Mistakes := card.Mistakes }

end Raw

end FlashCards

/-! # Theorems -/

namespace FlashCards

/-! ## Removing cards -/

/-- C1: on the deck a/x, a/y, b/z the call `removeCard("a")` returns with the
deck a/y, b/z: the card that moved into the place of the deleted one is
skipped, so a card with term a is still there, while the cards whose term is
not a are b/z alone. -/
theorem removeCard_skips_shifted_card :
    (removeCard "a" (State.mk [⟨"a", "x", 0⟩, ⟨"a", "y", 0⟩, ⟨"b", "z", 0⟩] [] [] []
        (fun _ => Node.missing))).map (fun s => s.cards)
      = .ok [⟨"a", "y", 0⟩, ⟨"b", "z", 0⟩] ∧
    ([⟨"a", "x", 0⟩, ⟨"a", "y", 0⟩, ⟨"b", "z", 0⟩] : List Card).filter
        (fun card => decide (card.Term ≠ "a"))
      = [⟨"b", "z", 0⟩] :=
  ⟨rfl, by decide⟩

/-- C2: on the deck capital/Paris the remove action reading `Paris`, which is
the term of no card, returns with the deck unchanged and reports that the card
has been removed; the no-such-card message is not printed. -/
theorem removeAction_reports_removal_for_definition :
    (removeAction (State.mk [⟨"capital", "Paris", 0⟩] [] ["Paris"] []
        (fun _ => Node.missing))).map (fun s => (s.cards, s.logs, s.stdout))
      = .ok ([⟨"capital", "Paris", 0⟩],
          ["Which card?", "Paris", "The card has been removed.\n"],
          ["Which card?\n", "The card has been removed.\n\n"]) ∧
    noSuchCardMsg "Paris" = "Can\x27t remove \"Paris\": there is no such card." :=
  ⟨rfl, by decide⟩

/-! ## Looking a string up -/

theorem checkIfCardExists_eq_true_iff (cards : List Card) (criteria : String) :
    checkIfCardExists cards criteria = true ↔
      ∃ card ∈ cards, card.Term = criteria ∨ card.Definition = criteria := by
  induction cards with
  | nil => simp [checkIfCardExists]
  | cons card rest ih =>
    unfold checkIfCardExists
    by_cases h : card.Term = criteria ∨ card.Definition = criteria
    · simp only [h, if_true, true_iff]
      exact ⟨card, List.mem_cons_self _ _, h⟩
    · simp only [h, if_false, ih, List.mem_cons, exists_eq_or_imp, false_or]

theorem checkIfCardExists_eq_false_iff (cards : List Card) (criteria : String) :
    checkIfCardExists cards criteria = false ↔
      ∀ card ∈ cards, card.Term ≠ criteria ∧ card.Definition ≠ criteria := by
  rw [← Bool.not_eq_true, checkIfCardExists_eq_true_iff]
  push_neg
  rfl

/-- C4: `checkIfCardExists(deck, s)` is true exactly when some card of the deck
has term `s` or definition `s`; it is false exactly when `s` equals no term and
no definition of the deck, and it is true on the deck with a card of term `s`
appended. -/
theorem checkIfCardExists_spec (cards : List Card) (s : String) :
    (checkIfCardExists cards s = true ↔
      ∃ card ∈ cards, card.Term = s ∨ card.Definition = s) ∧
    (checkIfCardExists cards s = false ↔
      ∀ card ∈ cards, card.Term ≠ s ∧ card.Definition ≠ s) ∧
    (∀ (definition : String) (mistakes : Int),
      checkIfCardExists (cards ++ [⟨s, definition, mistakes⟩]) s = true) := by
  refine ⟨checkIfCardExists_eq_true_iff cards s, checkIfCardExists_eq_false_iff cards s, ?_⟩
  intro definition mistakes
  rw [checkIfCardExists_eq_true_iff]
  exact ⟨⟨s, definition, mistakes⟩, by simp, Or.inl rfl⟩

/-! ## Parts of the state an operation leaves alone -/

@[simp] theorem printToTerminal_cards (msg : String) (s : State) :
    (printToTerminal msg s).cards = s.cards := rfl

@[simp] theorem printToTerminal_stdin (msg : String) (s : State) :
    (printToTerminal msg s).stdin = s.stdin := rfl

@[simp] theorem printToTerminal_files (msg : String) (s : State) :
    (printToTerminal msg s).files = s.files := rfl

@[simp] theorem printToTerminal_logs (msg : String) (s : State) :
    (printToTerminal msg s).logs = s.logs ++ [msg] := rfl

@[simp] theorem printToTerminal_stdout (msg : String) (s : State) :
    (printToTerminal msg s).stdout = s.stdout ++ [msg ++ "\n"] := rfl

@[simp] theorem getInput_cards (s : State) : (getInput s).2.cards = s.cards := by
  unfold getInput; cases s.stdin <;> rfl

@[simp] theorem getInput_files (s : State) : (getInput s).2.files = s.files := by
  unfold getInput; cases s.stdin <;> rfl

@[simp] theorem getInput_stdout (s : State) : (getInput s).2.stdout = s.stdout := by
  unfold getInput; cases s.stdin <;> rfl

@[simp] theorem getInput_stdin (s : State) : (getInput s).2.stdin = s.stdin.drop 1 := by
  unfold getInput; cases s.stdin <;> rfl

/-- The line `getInput` returns: the next line trimmed, or the empty string
once the input is used up. -/
theorem getInput_fst (s : State) :
    (getInput s).1 = (s.stdin.head?.map trimSpace).getD "" := by
  unfold getInput; cases s.stdin <;> rfl

@[simp] theorem getInput_logs (s : State) :
    (getInput s).2.logs = s.logs ++ [(getInput s).1] := by
  unfold getInput; cases s.stdin <;> rfl

/-! ## Card creation -/

/-- A retry loop that returns leaves the deck alone and returns a string that
is in no card of it. -/
theorem retryLoop_ok (msg : String → String) (fuel : Nat) (cur : String) (s : State)
    (out : String) (s' : State) (h : retryLoop msg fuel cur s = .ok (out, s')) :
    s'.cards = s.cards ∧ checkIfCardExists s.cards out = false := by
  induction fuel generalizing cur s with
  | zero => simp [retryLoop] at h
  | succ fuel ih =>
    unfold retryLoop at h
    by_cases hex : checkIfCardExists s.cards cur = true
    · rw [if_pos hex] at h
      have := ih _ _ h
      simpa using this
    · rw [if_neg hex] at h
      cases h
      exact ⟨rfl, by simpa using hex⟩

/-- A retry loop given fuel for two tests more than there are unread lines
runs out of fuel only when the empty string is in the deck, that is, only
when the loop of the program goes on forever. -/
theorem retryLoop_error (msg : String → String) (fuel : Nat) (cur : String) (s : State)
    (e : Abort) (hfuel : s.stdin.length + 2 ≤ fuel ∨ (s.stdin = [] ∧ cur = "" ∧ 1 ≤ fuel))
    (h : retryLoop msg fuel cur s = .error e) :
    e = .hang ∧ checkIfCardExists s.cards "" = true := by
  induction fuel generalizing cur s with
  | zero => omega
  | succ fuel ih =>
    unfold retryLoop at h
    by_cases hex : checkIfCardExists s.cards cur = true
    · rw [if_pos hex] at h
      rcases hfuel with hfuel | ⟨hnil, hcur, _⟩
      · cases fuel with
        | zero => omega
        | succ fuel =>
          have := ih _ _ (by
            cases hs : s.stdin with
            | nil =>
              right
              refine ⟨by simp [hs], ?_, by omega⟩
              rw [getInput_fst]; simp [hs]
            | cons line rest =>
              left
              simp [hs] at hfuel ⊢
              omega) h
          simpa using this
      · subst hcur
        cases fuel with
        | zero =>
          simp only [retryLoop] at h
          cases h
          exact ⟨rfl, hex⟩
        | succ fuel => exact ⟨(by
            have := ih _ _ (by
              right
              refine ⟨by simp [hnil], ?_, by omega⟩
              rw [getInput_fst]; simp [hnil]) h
            exact this.1), hex⟩
    · rw [if_neg hex] at h
      cases h

/-- What `createCard` returns: the deck is as before, the new card has no
mistakes, and neither its term nor its definition is in a card of the deck. -/
theorem createCard_ok (s : State) (card : Card) (s' : State)
    (h : createCard s = .ok (card, s')) :
    s'.cards = s.cards ∧ card.Mistakes = 0 ∧
      checkIfCardExists s.cards card.Term = false ∧
      checkIfCardExists s.cards card.Definition = false := by
  unfold createCard at h
  simp only [bind, Except.bind, pure, Except.pure] at h
  split at h
  · cases h
  · rename_i v1 h1
    obtain ⟨term, s2⟩ := v1
    split at h
    · cases h
    · rename_i v2 h2
      obtain ⟨definition, s4⟩ := v2
      simp only [Except.ok.injEq, Prod.mk.injEq] at h
      obtain ⟨hc, hs⟩ := h
      subst hc hs
      have a1 := retryLoop_ok _ _ _ _ _ _ h1
      have a2 := retryLoop_ok _ _ _ _ _ _ h2
      simp only [getInput_cards, printToTerminal_cards] at a1 a2
      refine ⟨by rw [a2.1, a1.1], rfl, a1.2, ?_⟩
      have := a2.2
      rwa [a1.1] at this

/-- The function `createCard` fails to return only by looping forever, and
then the empty string is a term or a definition of the deck. -/
theorem createCard_error (s : State) (e : Abort) (h : createCard s = .error e) :
    e = .hang ∧ checkIfCardExists s.cards "" = true := by
  unfold createCard at h
  simp only [bind, Except.bind, pure, Except.pure] at h
  split at h
  · rename_i e1 h1
    cases h
    have := retryLoop_error _ _ _ _ _ (Or.inl (le_refl _)) h1
    simpa using this
  · rename_i v1 h1
    obtain ⟨term, s2⟩ := v1
    have a1 := retryLoop_ok _ _ _ _ _ _ h1
    simp only [getInput_cards, printToTerminal_cards] at a1
    split at h
    · rename_i e2 h2
      cases h
      have := retryLoop_error _ _ _ _ _ (Or.inl (le_refl _)) h2
      simpa [a1.1] using this
    · cases h

/-- What `addAction` does to the deck when it returns. -/
theorem addAction_ok (s s' : State) (h : addAction s = .ok s') :
    ∃ card : Card, s'.cards = s.cards ++ [card] ∧ card.Mistakes = 0 ∧
      checkIfCardExists s.cards card.Term = false ∧
      checkIfCardExists s.cards card.Definition = false := by
  unfold addAction at h
  simp only [bind, Except.bind, pure, Except.pure] at h
  split at h
  · cases h
  · rename_i v hv
    obtain ⟨card, s1⟩ := v
    cases h
    have := createCard_ok _ _ _ hv
    exact ⟨card, by simp [this.1], this.2⟩

/-! ## Removal keeps a part of the deck -/

/-- Deleting the element at index `i` inside the backing array leaves, as the
new slice, the old slice without that element. -/
theorem take_after_delete (arr : List Card) (i len : Nat) (hi : i + 1 ≤ len)
    (hlen : len ≤ arr.length) :
    (arr.take i ++ (arr.take len).drop (i + 1) ++ arr.drop (len - 1)).take (len - 1)
      = (arr.take len).take i ++ (arr.take len).drop (i + 1) := by
  have h1 : (arr.take i ++ (arr.take len).drop (i + 1)).length = len - 1 := by
    simp only [List.length_append, List.length_take, List.length_drop]
    omega
  rw [List.take_left' h1, List.take_take, min_eq_left (by omega)]

/-- Every round of the loop of `removeCard` keeps the current slice a part,
in order, of the slice it started from. -/
theorem removeLoop_sublist (term : String) (rounds i : Nat) (arr : List Card) (len : Nat)
    (arr' : List Card) (len' : Nat) (hlen : len ≤ arr.length)
    (h : removeLoop term rounds i arr len = .ok (arr', len')) :
    (arr'.take len').Sublist (arr.take len) := by
  induction rounds generalizing i arr len with
  | zero =>
    simp only [removeLoop, Except.ok.injEq, Prod.mk.injEq] at h
    obtain ⟨rfl, rfl⟩ := h
    exact List.Sublist.refl _
  | succ rounds ih =>
    unfold removeLoop at h
    split at h
    · cases h
    · rename_i card _
      by_cases hterm : card.Term = term
      · rw [if_pos hterm] at h
        by_cases hi : i + 1 ≤ len
        · rw [if_pos hi] at h
          have hlen2 : len - 1 ≤
              (arr.take i ++ (arr.take len).drop (i + 1) ++ arr.drop (len - 1)).length := by
            simp only [List.length_append, List.length_take, List.length_drop]
            omega
          have := ih _ _ _ hlen2 h
          rw [take_after_delete arr i len hi hlen] at this
          refine this.trans ?_
          conv_rhs => rw [← List.take_append_drop i (arr.take len)]
          exact (List.Sublist.refl _).append (List.drop_sublist_drop_left _ (by omega))
        · rw [if_neg hi] at h
          cases h
      · rw [if_neg hterm] at h
        exact ih _ _ _ hlen h

/-- When `removeCard` returns, the deck is a part, in order, of the old deck. -/
theorem removeCard_sublist (term : String) (s s' : State) (h : removeCard term s = .ok s') :
    s'.cards.Sublist s.cards := by
  unfold removeCard at h
  simp only [bind, Except.bind, pure, Except.pure] at h
  split at h
  · cases h
  · rename_i v hv
    obtain ⟨arr, len⟩ := v
    cases h
    have := removeLoop_sublist _ _ _ _ _ _ _ (le_refl _) hv
    simpa using this

/-- When `removeAction` returns, the deck is a part, in order, of the old deck. -/
theorem removeAction_sublist (s s' : State) (h : removeAction s = .ok s') :
    s'.cards.Sublist s.cards := by
  unfold removeAction at h
  dsimp only at h
  split at h
  · have := removeCard_sublist _ _ _ h
    simpa using this
  · cases h
    simp

/-! ## The uniqueness constraint -/

theorem unique_of_sublist {cards cards' : List Card} (hsub : cards'.Sublist cards)
    (h : Unique cards) : Unique cards' :=
  List.Pairwise.sublist hsub h

theorem unique_of_keys {cards cards' : List Card}
    (hkeys : cards'.map Card.key = cards.map Card.key) (h : Unique cards) : Unique cards' := by
  have e : ∀ l : List Card, Unique l ↔
      (l.map Card.key).Pairwise (fun a b =>
        ¬ (a.1 = b.1 ∨ a.1 = b.2 ∨ a.2 = b.1 ∨ a.2 = b.2)) := by
    intro l
    rw [List.pairwise_map]
    rfl
  rw [e] at h ⊢
  rw [hkeys]
  exact h

theorem unique_append_fresh {cards : List Card} (card : Card) (h : Unique cards)
    (hterm : checkIfCardExists cards card.Term = false)
    (hdef : checkIfCardExists cards card.Definition = false) :
    Unique (cards ++ [card]) := by
  unfold Unique at h ⊢
  rw [List.pairwise_append]
  refine ⟨h, List.pairwise_singleton _ _, ?_⟩
  intro a ha b hb
  rw [List.mem_singleton] at hb
  subst hb
  rw [checkIfCardExists_eq_false_iff] at hterm hdef
  have t := hterm a ha
  have d := hdef a ha
  unfold Clash
  rintro (h1 | h1 | h1 | h1)
  · exact t.1 h1
  · exact d.1 h1
  · exact t.2 h1
  · exact d.2 h1

/-! ## The quiz loop -/

theorem askIndex_eq_mod (i n : Nat) : askIndex i n = i % n := by
  unfold askIndex
  split
  · rfl
  · rw [Nat.mod_eq_of_lt (by omega)]

theorem answerAt_zero (s : State) : answerAt s.stdin 0 = (getInput s).1 := by
  rw [getInput_fst]
  unfold answerAt
  cases s.stdin <;> simp

theorem answerAt_succ (stdin : List String) (t : Nat) :
    answerAt stdin (t + 1) = answerAt (stdin.drop 1) t := by
  unfold answerAt
  rw [List.getElem?_drop, Nat.add_comm]

/-- The first round counts alone, the others are the rounds of the quiz that
starts one line and one index later. -/
theorem missCount_succ (n : Nat) (stdin : List String) (i rounds j : Nat) (d : String) :
    missCount n stdin i (rounds + 1) j d =
      missCount n (stdin.drop 1) (i + 1) rounds j d +
        (if i % n = j ∧ answerAt stdin 0 ≠ d then 1 else 0) := by
  unfold missCount
  rw [List.range_succ_eq_map, List.filter_cons, List.filter_map]
  have hfun : ((fun t => decide ((i + t) % n = j ∧ answerAt stdin t ≠ d)) ∘ Nat.succ)
      = fun t => decide ((i + 1 + t) % n = j ∧ answerAt (stdin.drop 1) t ≠ d) := by
    funext t
    have e : i + (t + 1) = i + 1 + t := by omega
    simp only [Function.comp, Nat.succ_eq_add_one, answerAt_succ, e]
  rw [hfun]
  by_cases h0 : i % n = j ∧ answerAt stdin 0 ≠ d
  · rw [if_pos (by simpa using h0), if_pos h0, List.length_cons, List.length_map]
  · rw [if_neg (by simpa using h0), if_neg h0, List.length_map]
    rfl

/-- One round of the quiz over a deck that is not empty returns; it reads one
line, keeps the number of cards, and changes nothing but the counter of the
selected card, which goes up by one when the answer is not its definition. -/
theorem askIter_cards (i : Nat) (s : State) (hne : s.cards ≠ []) :
    ∃ s1, askIter i s = .ok s1 ∧ s1.stdin = s.stdin.drop 1 ∧
      s1.cards.length = s.cards.length ∧
      ∀ (j : Nat) (c : Card), s.cards[j]? = some c →
        s1.cards[j]? = some (c.withMistakes
          (if i % s.cards.length = j ∧ answerAt s.stdin 0 ≠ c.Definition
            then bump c.Mistakes else c.Mistakes)) := by
  have hpos : 0 < s.cards.length := List.length_pos.mpr hne
  have hidx : i % s.cards.length < s.cards.length := Nat.mod_lt _ hpos
  obtain ⟨card, hcard⟩ : ∃ card, s.cards[i % s.cards.length]? = some card :=
    ⟨s.cards[i % s.cards.length], List.getElem?_eq_getElem hidx⟩
  have hans : (getInput (printToTerminal (askPrompt card.Term) s)).1 = answerAt s.stdin 0 := by
    rw [getInput_fst, printToTerminal_stdin]
    unfold answerAt
    cases s.stdin <;> simp
  have keep : ∀ (j : Nat) (c : Card), s.cards[j]? = some c →
      s.cards[j]? = some (c.withMistakes
        (if i % s.cards.length = j ∧ card.Definition ≠ c.Definition
          then bump c.Mistakes else c.Mistakes)) := by
    intro j c hc
    rw [hc]
    by_cases hj : i % s.cards.length = j
    · subst hj
      rw [hcard] at hc
      cases hc
      simp [Card.withMistakes]
    · simp [hj, Card.withMistakes]
  have moved : ∀ (j : Nat) (c : Card), s.cards[j]? = some c →
      answerAt s.stdin 0 ≠ card.Definition →
      (s.cards.set (i % s.cards.length) { card with Mistakes := bump card.Mistakes })[j]? =
        some (c.withMistakes
          (if i % s.cards.length = j ∧ answerAt s.stdin 0 ≠ c.Definition
            then bump c.Mistakes else c.Mistakes)) := by
    intro j c hc hwrong
    rw [List.getElem?_set]
    by_cases hj : i % s.cards.length = j
    · subst hj
      rw [hcard] at hc
      cases hc
      simp [hidx, hwrong, Card.withMistakes]
    · simp [hj, hc, Card.withMistakes]
  unfold askIter
  simp only [askIndex_eq_mod, hcard, hans, getInput_cards, printToTerminal_cards]
  by_cases hright : answerAt s.stdin 0 = card.Definition
  · rw [if_pos hright]
    refine ⟨_, rfl, by simp, by simp, ?_⟩
    intro j c hc
    simp only [printToTerminal_cards, getInput_cards, hright]
    exact keep j c hc
  · rw [if_neg hright]
    split
    · refine ⟨_, rfl, by simp, by simp, ?_⟩
      intro j c hc
      exact moved j c hc hright
    · refine ⟨_, rfl, by simp, by simp, ?_⟩
      intro j c hc
      exact moved j c hc hright

/-- The quiz loop over a deck that is not empty returns; it keeps the number
of cards, and the card at index `j` keeps its term and definition while its
counter is increased once for every round that selects it and gets an answer
other than its definition. -/
theorem askLoop_cards (rounds i : Nat) (s : State) (hne : s.cards ≠ []) :
    ∃ s', askLoop rounds i s = .ok s' ∧ s'.stdin = s.stdin.drop rounds ∧
      s'.cards.length = s.cards.length ∧
      ∀ (j : Nat) (c : Card), s.cards[j]? = some c →
        s'.cards[j]? = some (c.withMistakes
          (bump^[missCount s.cards.length s.stdin i rounds j c.Definition] c.Mistakes)) := by
  induction rounds generalizing i s with
  | zero =>
    refine ⟨s, rfl, by simp, rfl, ?_⟩
    intro j c hc
    simpa [missCount, Card.withMistakes] using hc
  | succ rounds ih =>
    obtain ⟨s1, h1, hin1, hlen1, hcards1⟩ := askIter_cards i s hne
    have hne1 : s1.cards ≠ [] := by
      intro h
      rw [h] at hlen1
      exact hne (List.length_eq_zero.mp hlen1.symm)
    obtain ⟨s', h', hin', hlen', hcards'⟩ := ih (i + 1) s1 hne1
    refine ⟨s', ?_, ?_, by rw [hlen', hlen1], ?_⟩
    · simp only [askLoop, bind, Except.bind, h1, h']
    · rw [hin', hin1, List.drop_drop]
      congr 1
      omega
    · intro j c hc
      have e1 := hcards1 j c hc
      have e2 := hcards' j _ e1
      rw [e2, missCount_succ, Function.iterate_add_apply, hlen1, hin1]
      by_cases hit : i % s.cards.length = j ∧ answerAt s.stdin 0 ≠ c.Definition
      · simp [hit, Card.withMistakes]
      · simp [hit, Card.withMistakes]

/-- Two decks of the same length whose cards differ at most in their counters
have the same terms and definitions. -/
theorem keys_eq_of_counters {cards cards' : List Card} (hlen : cards'.length = cards.length)
    (h : ∀ (j : Nat) (c : Card), cards[j]? = some c →
      ∃ m : Int, cards'[j]? = some (c.withMistakes m)) :
    cards'.map Card.key = cards.map Card.key := by
  apply List.ext_getElem?
  intro j
  rw [List.getElem?_map, List.getElem?_map]
  cases hc : cards[j]? with
  | none =>
    have : cards'[j]? = none := by
      rw [List.getElem?_eq_none_iff] at hc ⊢
      omega
    rw [this]
  | some c =>
    obtain ⟨m, hm⟩ := h j c hc
    rw [hm]
    rfl

/-- The quiz changes no term and no definition. -/
theorem askAction_keys (s s' : State) (h : askAction s = .ok s') :
    s'.cards.map Card.key = s.cards.map Card.key := by
  unfold askAction at h
  dsimp only at h
  split at h
  · cases h
    simp [getTimesToAsk]
  · rename_i hlen
    have hne : (getTimesToAsk s).2.cards ≠ [] := fun hnil => hlen (by rw [hnil]; rfl)
    obtain ⟨s'', h'', _, hlen'', hcards⟩ := askLoop_cards (getTimesToAsk s).1.toNat 0 _ hne
    rw [h''] at h
    cases h
    have hsame : (getTimesToAsk s).2.cards = s.cards := by simp [getTimesToAsk]
    rw [← hsame]
    exact keys_eq_of_counters hlen'' fun j c hc => ⟨_, hcards j c hc⟩

/-- Resetting the statistics changes no term and no definition. -/
theorem resetAction_keys (s : State) :
    (resetAction s).cards.map Card.key = s.cards.map Card.key := by
  simp only [resetAction, printToTerminal_cards, List.map_map]
  rfl

/-- Each of the actions add, remove, ask and reset stats keeps the uniqueness
constraint. -/
theorem run_unique (J : Json) (a : Action) (s s' : State)
    (ha : a = .add ∨ a = .remove ∨ a = .ask ∨ a = .resetStats)
    (hs : Unique s.cards) (hrun : a.run J s = .ok s') : Unique s'.cards := by
  rcases ha with rfl | rfl | rfl | rfl
  · obtain ⟨card, hcards, _, hterm, hdef⟩ := addAction_ok s s' hrun
    rw [hcards]
    exact unique_append_fresh card hs hterm hdef
  · exact unique_of_sublist (removeAction_sublist s s' hrun) hs
  · exact unique_of_keys (askAction_keys s s' hrun) hs
  · simp only [Action.run, Except.ok.injEq] at hrun
    subst hrun
    exact unique_of_keys (resetAction_keys s) hs

/-- C3, as amended: in every deck reached from a deck that meets the
uniqueness constraint, the empty deck of a fresh session among them, by any
sequence of add, remove, ask and reset-stats actions, no two cards at different
places share a term or a definition with each other's term or definition. -/
theorem unique_after_actions (J : Json) (acts : List Action) (s s' : State)
    (hacts : ∀ a ∈ acts, a = .add ∨ a = .remove ∨ a = .ask ∨ a = .resetStats)
    (hs : Unique s.cards) (hrun : runActions J acts s = .ok s') : Unique s'.cards := by
  induction acts generalizing s with
  | nil =>
    simp only [runActions, Except.ok.injEq] at hrun
    subst hrun
    exact hs
  | cons a rest ih =>
    simp only [runActions, bind, Except.bind] at hrun
    split at hrun
    · cases hrun
    · rename_i s1 h1
      exact ih s1 (fun b hb => hacts b (List.mem_cons_of_mem _ hb))
        (run_unique J a s s1 (hacts a (List.mem_cons_self _ _)) hs h1) hrun

/-- C3, an instance: a session that adds capital/Paris and river/Nile, asks
once, removes capital and resets the statistics ends with the deck river/Nile,
which meets the uniqueness constraint. -/
theorem unique_after_actions_witness :
    ∃ s' : State,
      runActions plainJson [.add, .add, .ask, .remove, .resetStats]
        (initial ["capital", "Paris", "river", "Nile", "1", "Nile", "capital"]
          (fun _ => Node.missing)) = .ok s' ∧
      s'.cards = [⟨"river", "Nile", 0⟩] ∧ Unique s'.cards :=
  ⟨_, rfl, rfl,
    unique_after_actions plainJson [.add, .add, .ask, .remove, .resetStats]
      (initial ["capital", "Paris", "river", "Nile", "1", "Nile", "capital"]
        (fun _ => Node.missing)) _ (by decide) (by decide) rfl⟩

/-- C3, as stated, fails: from the empty deck one import action, reading a
file that holds the cards a/x and a/y, gives a deck in which two cards share
the term a. -/
theorem import_breaks_unique :
    (runActions plainJson [.importFile]
        (initial ["deck.json"] (oneFile "deck.json"
          "\x7b\"cards\":[\x7b\"term\":\"a\",\"definition\":\"x\"\x7d,\x7b\"term\":\"a\",\"definition\":\"y\"\x7d]\x7d\n"))).map
        (fun s => s.cards)
      = .ok [⟨"a", "x", 0⟩, ⟨"a", "y", 0⟩] ∧
    ¬ Unique [⟨"a", "x", 0⟩, ⟨"a", "y", 0⟩] :=
  ⟨rfl, by decide⟩

/-! ## What card creation checks -/

/-- C7, as amended: when `createCard` returns, the term and the definition of
the returned card both differ from the term and from the definition of every
card of the deck; the definition is not compared with the term just chosen. -/
theorem createCard_fresh (s : State) (card : Card) (s' : State)
    (h : createCard s = .ok (card, s')) :
    ∀ c ∈ s.cards, card.Term ≠ c.Term ∧ card.Term ≠ c.Definition ∧
      card.Definition ≠ c.Term ∧ card.Definition ≠ c.Definition := by
  obtain ⟨_, _, hterm, hdef⟩ := createCard_ok s card s' h
  rw [checkIfCardExists_eq_false_iff] at hterm hdef
  intro c hc
  exact ⟨Ne.symm (hterm c hc).1, Ne.symm (hterm c hc).2, Ne.symm (hdef c hc).1,
    Ne.symm (hdef c hc).2⟩

/-- C7, an instance: with capital/Paris in the deck and the lines `capital`,
`river`, `Paris`, `Nile`, card creation rejects `capital` and `Paris` and
returns river/Nile. -/
theorem createCard_fresh_witness :
    ∃ s' : State,
      createCard (State.mk [⟨"capital", "Paris", 0⟩] [] ["capital", "river", "Paris", "Nile"] []
        (fun _ => Node.missing)) = .ok (⟨"river", "Nile", 0⟩, s') ∧
      ∀ c ∈ [(⟨"capital", "Paris", 0⟩ : Card)],
        "river" ≠ c.Term ∧ "river" ≠ c.Definition ∧ "Nile" ≠ c.Term ∧ "Nile" ≠ c.Definition :=
  ⟨_, rfl, createCard_fresh
    (State.mk [⟨"capital", "Paris", 0⟩] [] ["capital", "river", "Paris", "Nile"] []
      (fun _ => Node.missing)) ⟨"river", "Nile", 0⟩ _ rfl⟩

/-- C7, as stated, fails: on the empty deck with the lines `x` and `x`,
`createCard` returns the card x/x, whose definition is its own term. -/
theorem createCard_definition_equals_term :
    (createCard (initial ["x", "x"] (fun _ => Node.missing))).map (fun r => r.1)
      = .ok ⟨"x", "x", 0⟩ ∧
    (⟨"x", "x", 0⟩ : Card).Definition = (⟨"x", "x", 0⟩ : Card).Term :=
  ⟨rfl, rfl⟩

/-! ## Quiz scoring -/

/-- A counter that stays inside the range of `int` goes up by one for each
increment. -/
theorem bump_iterate (h : Nat) (m : Int) (hlow : -(2 ^ 63) ≤ m) (hhigh : m + h < 2 ^ 63) :
    bump^[h] m = m + h := by
  induction h generalizing m with
  | zero => simp
  | succ h ih =>
    rw [Function.iterate_succ_apply]
    have hb : bump m = m + 1 := by
      unfold bump wrapInt
      push_cast at hhigh
      omega
    rw [hb, ih (m + 1) (by omega) (by push_cast at hhigh ⊢; omega)]
    push_cast
    omega

/-- C5, as amended: for a deck that is not empty `askAction` returns with the
same number of cards, every card keeps its term and its definition, and the
counter of the card at index `j` is its old value incremented, with the
wrap-around of a 64-bit `int`, once for every round `t` below the requested
count with `t mod n = j` and an answer other than that card's definition; it
is the old value plus that number whenever the sum stays below `2^63`. -/
theorem askAction_counters (s : State) (hne : s.cards ≠ []) :
    ∃ s', askAction s = .ok s' ∧ s'.cards.length = s.cards.length ∧
      ∀ (j : Nat) (c : Card), s.cards[j]? = some c →
        ∃ c', s'.cards[j]? = some c' ∧ c'.Term = c.Term ∧ c'.Definition = c.Definition ∧
          c'.Mistakes =
            bump^[((List.range (getTimesToAsk s).1.toNat).filter fun t =>
              decide (t % s.cards.length = j ∧
                answerAt (getTimesToAsk s).2.stdin t ≠ c.Definition)).length] c.Mistakes ∧
          (-(2 ^ 63) ≤ c.Mistakes →
            c.Mistakes + ((List.range (getTimesToAsk s).1.toNat).filter fun t =>
              decide (t % s.cards.length = j ∧
                answerAt (getTimesToAsk s).2.stdin t ≠ c.Definition)).length < 2 ^ 63 →
            c'.Mistakes = c.Mistakes +
              ((List.range (getTimesToAsk s).1.toNat).filter fun t =>
                decide (t % s.cards.length = j ∧
                  answerAt (getTimesToAsk s).2.stdin t ≠ c.Definition)).length) := by
  have hsame : (getTimesToAsk s).2.cards = s.cards := by simp [getTimesToAsk]
  have hne' : (getTimesToAsk s).2.cards ≠ [] := by rw [hsame]; exact hne
  obtain ⟨s', h', _, hlen', hcards⟩ := askLoop_cards (getTimesToAsk s).1.toNat 0 _ hne'
  refine ⟨s', ?_, by rw [hlen', hsame], ?_⟩
  · unfold askAction
    dsimp only
    rw [if_neg (by
      intro h0
      exact hne' (List.length_eq_zero.mp h0))]
    exact h'
  · intro j c hc
    have e := hcards j c (by rw [hsame]; exact hc)
    simp only [missCount, Nat.zero_add, hsame] at e
    refine ⟨_, e, rfl, rfl, rfl, ?_⟩
    intro hlow hhigh
    exact bump_iterate _ _ hlow hhigh

/-- C5, an instance: the scenario deck asked three times with the answers
`Paris`, `x` and `Rome` ends with one mistake on each card. -/
theorem askAction_counters_witness :
    (∃ s', askAction (session scenarioDeck ["3", "Paris", "x", "Rome"]) = .ok s' ∧
      s'.cards.length = (session scenarioDeck ["3", "Paris", "x", "Rome"]).cards.length) ∧
    (askAction (session scenarioDeck ["3", "Paris", "x", "Rome"])).map (fun s => s.cards)
      = .ok [⟨"capital", "Paris", 1⟩, ⟨"river", "Nile", 1⟩] :=
  ⟨(askAction_counters (session scenarioDeck ["3", "Paris", "x", "Rome"])
      (by decide)).imp fun _ h => ⟨h.1, h.2.1⟩, rfl⟩

/-- C5, as stated, fails: a card whose counter is `2^63 - 1`, the largest
`int`, asked once with a wrong answer ends with counter `-2^63`, not with its
old value plus one. -/
theorem askAction_counter_wraps :
    (askAction (session [⟨"capital", "Paris", 9223372036854775807⟩] ["1", "Rome"])).map
        (fun s => s.cards)
      = .ok [⟨"capital", "Paris", -9223372036854775808⟩] ∧
    (-9223372036854775808 : Int) ≠ 9223372036854775807 + 1 :=
  ⟨rfl, by decide⟩

/-! ## Quiz reports -/

/-- The log and the output after one quiz round with a wrong answer: the
prompt, the answer read, and the report `msg`. -/
theorem askIter_wrong_eq (i : Nat) (s : State) (c : Card)
    (hc : s.cards[i % s.cards.length]? = some c)
    (hwrong : answerAt s.stdin 0 ≠ c.Definition) :
    (askIter i s).map (fun s' => (s'.logs, s'.stdout)) =
      .ok (match s.cards.find? (fun fCard => decide (fCard.Definition = answerAt s.stdin 0)) with
        | some f =>
          (s.logs ++ [askPrompt c.Term, answerAt s.stdin 0, crossMsg c.Definition f.Term],
            s.stdout ++ [askPrompt c.Term ++ "\n", crossMsg c.Definition f.Term ++ "\n"])
        | none =>
          (s.logs ++ [askPrompt c.Term, answerAt s.stdin 0, wrongMsg c.Definition],
            s.stdout ++ [askPrompt c.Term ++ "\n", wrongMsg c.Definition ++ "\n"])) := by
  have hans : (getInput (printToTerminal (askPrompt c.Term) s)).1 = answerAt s.stdin 0 := by
    rw [getInput_fst, printToTerminal_stdin]
    unfold answerAt
    cases s.stdin <;> simp
  unfold askIter
  simp only [askIndex_eq_mod, hc, hans, getInput_cards, printToTerminal_cards]
  rw [if_neg hwrong]
  cases s.cards.find? (fun fCard => decide (fCard.Definition = answerAt s.stdin 0)) with
  | none => simp [Except.map, hans]
  | some f => simp [Except.map, hans]

/-- C6: in a quiz round whose answer is not the definition of the selected
card, when the answer is the definition of some card the report is the
cross-reference message naming the term of the first card in deck order whose
definition is the answer, and that card is not the selected one; when the
answer is the definition of no card the report is the plain wrong-answer
message.  The prompt and both reports are given as the texts printed and
logged.  In the scenario capital/Paris, river/Nile asked once with the answer
`Nile`, the report names `river` and the counter of capital becomes 1. -/
theorem askIter_report :
    (∀ (i : Nat) (s : State) (c : Card),
      s.cards[i % s.cards.length]? = some c →
      answerAt s.stdin 0 ≠ c.Definition →
      ((∃ f ∈ s.cards, f.Definition = answerAt s.stdin 0) →
        ∃ (before : List Card) (f : Card) (after : List Card),
          s.cards = before ++ f :: after ∧
          (∀ a ∈ before, a.Definition ≠ answerAt s.stdin 0) ∧
          f.Definition = answerAt s.stdin 0 ∧
          before.length ≠ i % s.cards.length ∧
          (askIter i s).map (fun s' => (s'.logs, s'.stdout)) =
            .ok (s.logs ++
                ["Print the definition of \"" ++ c.Term ++ "\":",
                  answerAt s.stdin 0,
                  "Wrong. The right answer is \"" ++ c.Definition ++
                    "\", but your definition is correct for \"" ++ f.Term ++ "\"."],
              s.stdout ++
                ["Print the definition of \"" ++ c.Term ++ "\":" ++ "\n",
                  "Wrong. The right answer is \"" ++ c.Definition ++
                    "\", but your definition is correct for \"" ++ f.Term ++ "\"." ++ "\n"])) ∧
      ((∀ f ∈ s.cards, f.Definition ≠ answerAt s.stdin 0) →
        (askIter i s).map (fun s' => (s'.logs, s'.stdout)) =
          .ok (s.logs ++
              ["Print the definition of \"" ++ c.Term ++ "\":",
                answerAt s.stdin 0,
                "Wrong. The right answer is \"" ++ c.Definition ++ "\"."],
            s.stdout ++
              ["Print the definition of \"" ++ c.Term ++ "\":" ++ "\n",
                "Wrong. The right answer is \"" ++ c.Definition ++ "\"." ++ "\n"]))) ∧
    (askAction (session scenarioDeck ["1", "Nile"])).map (fun s' => (s'.cards, s'.logs)) =
      .ok ([⟨"capital", "Paris", 1⟩, ⟨"river", "Nile", 0⟩],
        ["How many times to ask?", "1", "Print the definition of \"capital\":", "Nile",
          "Wrong. The right answer is \"Paris\", but your definition is correct for \"river\"."]) := by
  refine ⟨?_, rfl⟩
  intro i s c hc hwrong
  have hrep := askIter_wrong_eq i s c hc hwrong
  constructor
  · rintro ⟨g, hg, hgdef⟩
    cases hfind : s.cards.find? (fun fCard => decide (fCard.Definition = answerAt s.stdin 0)) with
    | none =>
      rw [List.find?_eq_none] at hfind
      exact absurd (by simpa using hgdef) (hfind g hg)
    | some f =>
      rw [hfind] at hrep
      rw [List.find?_eq_some] at hfind
      obtain ⟨hf, before, after, hsplit, hbefore⟩ := hfind
      have hfdef : f.Definition = answerAt s.stdin 0 := by simpa using hf
      refine ⟨before, f, after, hsplit, ?_, hfdef, ?_, hrep⟩
      · intro a ha
        simpa using hbefore a ha
      · intro hidx
        have hat : s.cards[before.length]? = some f := by
          rw [hsplit, List.getElem?_append_right (le_refl _)]
          simp
        rw [hidx, hc] at hat
        cases hat
        exact hwrong hfdef.symm
  · intro hnone
    have hfind : s.cards.find? (fun fCard => decide (fCard.Definition = answerAt s.stdin 0))
        = none := by
      rw [List.find?_eq_none]
      intro x hx
      simpa using hnone x hx
    rw [hfind] at hrep
    exact hrep

/-- C6, an instance: the first round of the scenario, capital selected and
`Nile` answered, reports the cross-reference to `river`, the card at index 1. -/
theorem askIter_report_witness :
    ∃ (before : List Card) (f : Card) (after : List Card),
      scenarioDeck = before ++ f :: after ∧
      (∀ a ∈ before, a.Definition ≠ "Nile") ∧
      f.Definition = "Nile" ∧
      before.length ≠ 0 ∧
      (askIter 0 (session scenarioDeck ["Nile"])).map (fun s' => (s'.logs, s'.stdout)) =
        .ok ([] ++
            ["Print the definition of \"" ++ "capital" ++ "\":",
              "Nile",
              "Wrong. The right answer is \"" ++ "Paris" ++
                "\", but your definition is correct for \"" ++ f.Term ++ "\"."],
          [] ++
            ["Print the definition of \"" ++ "capital" ++ "\":" ++ "\n",
              "Wrong. The right answer is \"" ++ "Paris" ++
                "\", but your definition is correct for \"" ++ f.Term ++ "\"." ++ "\n"]) :=
  (askIter_report.1 0 (session scenarioDeck ["Nile"]) ⟨"capital", "Paris", 0⟩ rfl
    (by decide)).1 ⟨⟨"river", "Nile", 0⟩, by decide, by decide⟩

/-! ## Export -/

/-- Opening the target of an export leaves it empty. -/
theorem readFromFile_content (fileName : String) (s s1 : State)
    (h : readFromFile fileName s = .ok s1) :
    fileContent fileName s1 = "" ∧ s1.cards = s.cards ∧ s1.logs = s.logs ∧
      s1.stdout = s.stdout := by
  unfold readFromFile at h
  split at h
  · cases h
  · cases h
    simp [fileContent]

/-- Whatever the target held, `saveInFile` adds no card to the deck and leaves
in the file the document of the deck alone. -/
theorem saveInFile_writes_deck (J : Json) (fileName : String) (s s' : State)
    (h : saveInFile J fileName s = .ok s') :
    s'.cards = s.cards ∧ s'.logs = s.logs ∧
      ∃ res, J.marshal s.cards = some res ∧ s'.files fileName = .regular (res ++ "\n") := by
  unfold saveInFile at h
  simp only [bind, Except.bind, pure, Except.pure] at h
  split at h
  · cases h
  · rename_i s1 h1
    obtain ⟨hcontent, hcards, hlogs, _⟩ := readFromFile_content fileName s s1 h1
    rw [hcontent] at h
    simp only [String.length, List.length_nil, gt_iff_lt, lt_self_iff_false, if_false] at h
    split at h
    · cases h
    · rename_i res hres
      cases h
      rw [hcards] at hres
      exact ⟨hcards, hlogs, res, hres, by simp⟩

/-- C8: with the card a/x in memory and a target file that holds the document
of the deck b/y, `exportAction` returns with a/x alone in memory, the document
of a/x alone in the file, and the report `1 cards have been saved.`: the file
is emptied when it is opened, before anything is read from it. -/
theorem exportAction_overwrites :
    Plain.decode "\x7b\"cards\":[\x7b\"term\":\"b\",\"definition\":\"y\"\x7d]\x7d\n"
      = some [⟨"b", "y", 0⟩] ∧
    (exportAction plainJson "deck.json"
        (State.mk [⟨"a", "x", 0⟩] [] [] []
          (oneFile "deck.json"
            "\x7b\"cards\":[\x7b\"term\":\"b\",\"definition\":\"y\"\x7d]\x7d\n"))).map
        (fun s => (s.cards, s.logs, s.files "deck.json"))
      = .ok ([⟨"a", "x", 0⟩], ["1 cards have been saved."],
          .regular "\x7b\"cards\":[\x7b\"term\":\"a\",\"definition\":\"x\"\x7d]\x7d\n") :=
  ⟨by decide, rfl⟩

/-! ## Import -/

/-- C9: for a file that exists and decodes to the cards `L`, `importAction`
returns with the deck followed by `L`, nothing dropped and nothing reordered,
and its only report is that `|L|` cards have been loaded. -/
theorem importAction_appends (J : Json) (fileName content : String) (L : List Card)
    (s : State) (hfile : s.files fileName = .regular content)
    (hdecode : J.unmarshal content = some L) :
    importAction J fileName s =
        .ok { printToTerminal (loadedMsg L.length) s with cards := s.cards ++ L } ∧
      loadedMsg L.length = toString L.length ++ " cards have been loaded." := by
  refine ⟨?_, rfl⟩
  unfold importAction readDeck
  simp only [hfile, hdecode, bind, Except.bind, pure, Except.pure, printToTerminal_cards]

/-- C9, an instance: importing a file with the cards a/x and a/x into the deck
a/x gives the deck a/x, a/x, a/x and the report `2 cards have been loaded.`. -/
theorem importAction_appends_witness :
    (importAction plainJson "deck.json"
        (State.mk [⟨"a", "x", 0⟩] [] [] []
          (oneFile "deck.json"
            "\x7b\"cards\":[\x7b\"term\":\"a\",\"definition\":\"x\"\x7d,\x7b\"term\":\"a\",\"definition\":\"x\"\x7d]\x7d\n"))).map
        (fun s => (s.cards, s.logs))
      = .ok ([⟨"a", "x", 0⟩, ⟨"a", "x", 0⟩, ⟨"a", "x", 0⟩], ["2 cards have been loaded."]) :=
  congrArg (Except.map fun s => (s.cards, s.logs))
    (importAction_appends plainJson "deck.json"
      "\x7b\"cards\":[\x7b\"term\":\"a\",\"definition\":\"x\"\x7d,\x7b\"term\":\"a\",\"definition\":\"x\"\x7d]\x7d\n"
      [⟨"a", "x", 0⟩, ⟨"a", "x", 0⟩]
      (State.mk [⟨"a", "x", 0⟩] [] [] []
        (oneFile "deck.json"
          "\x7b\"cards\":[\x7b\"term\":\"a\",\"definition\":\"x\"\x7d,\x7b\"term\":\"a\",\"definition\":\"x\"\x7d]\x7d\n"))
      rfl (by decide)).1

/-- C10: for a path at which no file exists, `importAction` returns normally;
its only report is `File not found.`, and the deck, the unread input and the
files are as before. -/
theorem importAction_missing_file (J : Json) (fileName : String) (s : State)
    (hfile : s.files fileName = .missing) :
    importAction J fileName s = .ok (printToTerminal "File not found." s) ∧
      (printToTerminal "File not found." s).cards = s.cards ∧
      (printToTerminal "File not found." s).logs = s.logs ++ ["File not found."] ∧
      (printToTerminal "File not found." s).stdout = s.stdout ++ ["File not found.\n"] := by
  refine ⟨?_, rfl, rfl, rfl⟩
  unfold importAction readDeck
  simp only [hfile, bind, Except.bind, pure, Except.pure]

/-- C10, an instance: the scenario deck importing from a path with no file. -/
theorem importAction_missing_file_witness :
    (importAction plainJson "nowhere.json" (session scenarioDeck [])).map
        (fun s => (s.cards, s.logs, s.stdout))
      = .ok (scenarioDeck, ["File not found."], ["File not found.\n"]) :=
  congrArg (Except.map fun s => (s.cards, s.logs, s.stdout))
    (importAction_missing_file plainJson "nowhere.json" (session scenarioDeck []) rfl).1

/-! ## Removing the one card with a term -/

/-- Rounds of the loop of `removeCard` over cards that do not match change nothing. -/
theorem removeLoop_skip (term : String) (p r i : Nat) (arr : List Card) (len : Nat)
    (h : ∀ k, k < p → ∃ c, arr[i + k]? = some c ∧ c.Term ≠ term) :
    removeLoop term (p + r) i arr len = removeLoop term r (i + p) arr len := by
  induction p generalizing i with
  | zero => simp
  | succ p ih =>
    obtain ⟨c, hc, hne⟩ := h 0 (by omega)
    rw [Nat.add_zero] at hc
    have e : p + 1 + r = (p + r) + 1 := by omega
    rw [e]
    conv_lhs => unfold removeLoop
    rw [hc]
    simp only [if_neg hne]
    rw [ih (i + 1) (by
      intro k hk
      have := h (k + 1) (by omega)
      have e2 : i + (k + 1) = i + 1 + k := by omega
      rwa [e2] at this)]
    congr 1
    omega

/-- The loop of `removeCard` on a deck in which one card has the term: no
slice operation is out of range and the current slice ends as the deck
without that card. -/
theorem removeLoop_single (term : String) (before after : List Card) (card : Card)
    (hcard : card.Term = term) (hbefore : ∀ x ∈ before, x.Term ≠ term)
    (hafter : ∀ x ∈ after, x.Term ≠ term) :
    ∃ arr', removeLoop term (before ++ card :: after).length 0
        (before ++ card :: after) (before ++ card :: after).length
      = .ok (arr', (before ++ after).length) ∧
      arr'.take (before ++ after).length = before ++ after := by
  have hrounds : (before ++ card :: after).length = before.length + (after.length + 1) := by
    simp
  have hskip := removeLoop_skip term before.length (after.length + 1) 0
    (before ++ card :: after) (before ++ card :: after).length (by
      intro k hk
      rw [Nat.zero_add, List.getElem?_append_left hk, List.getElem?_eq_getElem hk]
      exact ⟨_, rfl, hbefore _ (List.getElem_mem _)⟩)
  rw [Nat.zero_add] at hskip
  conv_lhs at hskip => rw [← hrounds]
  rw [hskip]
  unfold removeLoop
  have hget : (before ++ card :: after)[before.length]? = some card := by
    rw [List.getElem?_append_right (le_refl _)]
    simp
  rw [hget]
  simp only [if_pos hcard]
  rw [if_pos (by simp)]
  have hlen : (before ++ card :: after).length - 1 = (before ++ after).length := by simp
  rw [hlen, List.take_length, List.take_left' rfl]
  have hdrop : (before ++ card :: after).drop (before.length + 1) = after := by
    have : before ++ card :: after = (before ++ [card]) ++ after := by simp
    rw [this, List.drop_left' (by simp)]
  rw [hdrop]
  rcases List.eq_nil_or_concat after with hnil | ⟨front, z, hz⟩
  · subst hnil
    exact ⟨_, rfl, by simp⟩
  · have hskip2 := removeLoop_skip term after.length 0 (before.length + 1)
      (before ++ after ++ (before ++ card :: after).drop (before ++ after).length)
      (before ++ after).length (by
        intro k hk
        have hlast : (before ++ card :: after).drop (before ++ after).length = [z] := by
          have : before ++ card :: after = (before ++ card :: front) ++ [z] := by
            rw [hz]; simp
          rw [this, List.drop_left' (by rw [hz]; simp)]
        rw [hlast, List.append_assoc, List.getElem?_append_right (by omega)]
        have e : before.length + 1 + k - before.length = k + 1 := by omega
        rw [e]
        have hlt : k + 1 < (after ++ [z]).length := by simp; omega
        rw [List.getElem?_eq_getElem hlt]
        refine ⟨_, rfl, ?_⟩
        have hmem : (after ++ [z])[k + 1] ∈ after ++ [z] := List.getElem_mem _
        rcases List.mem_append.mp hmem with hm | hm
        · exact hafter _ hm
        · rw [List.mem_singleton] at hm
          rw [hm]
          exact hafter z (by rw [hz]; simp))
    rw [Nat.add_zero] at hskip2
    rw [hskip2]
    exact ⟨_, rfl, List.take_left' rfl⟩

/-- C19: on a deck in which exactly one card has the term, `removeCard` runs
without a panic and returns with that card deleted: the cards before it and
the cards after it stay as they are and in their order, and the deck is one
card shorter. -/
theorem removeCard_single (term : String) (s : State) (before after : List Card) (card : Card)
    (hdeck : s.cards = before ++ card :: after) (hcard : card.Term = term)
    (hbefore : ∀ x ∈ before, x.Term ≠ term) (hafter : ∀ x ∈ after, x.Term ≠ term) :
    removeCard term s =
        .ok (printToTerminal "The card has been removed.\n" { s with cards := before ++ after }) ∧
      (before ++ after).length + 1 = s.cards.length := by
  obtain ⟨arr', hloop, htake⟩ := removeLoop_single term before after card hcard hbefore hafter
  constructor
  · unfold removeCard
    rw [hdeck, hloop]
    simp only [bind, Except.bind, pure, Except.pure, htake]
  · rw [hdeck]
    simp only [List.length_append, List.length_cons]
    omega

/-- C19, an instance: removing `river` from the deck capital/Paris, river/Nile,
lake/Baikal leaves capital/Paris, lake/Baikal. -/
theorem removeCard_single_witness :
    (removeCard "river" (session
        [⟨"capital", "Paris", 0⟩, ⟨"river", "Nile", 2⟩, ⟨"lake", "Baikal", 1⟩] [])).map
        (fun s => s.cards)
      = .ok [⟨"capital", "Paris", 0⟩, ⟨"lake", "Baikal", 1⟩] :=
  congrArg (Except.map fun s => s.cards)
    (removeCard_single "river"
      (session [⟨"capital", "Paris", 0⟩, ⟨"river", "Nile", 2⟩, ⟨"lake", "Baikal", 1⟩] [])
      [⟨"capital", "Paris", 0⟩] [⟨"lake", "Baikal", 1⟩] ⟨"river", "Nile", 2⟩
      rfl rfl (by decide) (by decide)).1

/-! ## Adding a card -/

/-- C20: on a deck that meets the uniqueness constraint, when `addAction`
returns the deck is the old deck followed by one new card without mistakes,
and it meets the uniqueness constraint again. -/
theorem addAction_unique (s s' : State) (hs : Unique s.cards) (h : addAction s = .ok s') :
    ∃ card : Card, s'.cards = s.cards ++ [card] ∧ card.Mistakes = 0 ∧ Unique s'.cards := by
  obtain ⟨card, hcards, hzero, hterm, hdef⟩ := addAction_ok s s' h
  refine ⟨card, hcards, hzero, ?_⟩
  rw [hcards]
  exact unique_append_fresh card hs hterm hdef

/-- C20, an instance: adding to the scenario deck with the lines `river`,
`lake`, `Paris`, `Baikal` appends lake/Baikal. -/
theorem addAction_unique_witness :
    ∃ s' : State,
      addAction (session scenarioDeck ["river", "lake", "Paris", "Baikal"]) = .ok s' ∧
      s'.cards = scenarioDeck ++ [⟨"lake", "Baikal", 0⟩] ∧
      ∃ card : Card, s'.cards = scenarioDeck ++ [card] ∧ card.Mistakes = 0 ∧ Unique s'.cards :=
  ⟨_, rfl, rfl,
    addAction_unique (session scenarioDeck ["river", "lake", "Paris", "Baikal"]) _
      (by decide) rfl⟩

/-! ## The quiz on an empty deck and with a count that is no number -/

/-- On the empty deck `askAction` asks for the count, reports that there are not
enough cards and returns. -/
theorem askAction_on_empty (s : State) (h : s.cards = []) :
    askAction s = .ok (printToTerminal "Not enough cards..." (getTimesToAsk s).2) := by
  have hcards : (getTimesToAsk s).2.cards = [] := by simp [getTimesToAsk, h]
  unfold askAction
  dsimp only
  rw [if_pos (by rw [hcards]; rfl)]

/-- C16: on the empty deck `askAction` reads the reply to its question, reports
`Not enough cards...` and returns: nothing else is printed, no further line is
read, and the deck stays empty. -/
theorem askAction_empty (s : State) (h : s.cards = []) :
    askAction s = .ok (printToTerminal "Not enough cards..." (getTimesToAsk s).2) ∧
      (printToTerminal "Not enough cards..." (getTimesToAsk s).2).stdout =
        s.stdout ++ ["How many times to ask?\n", "Not enough cards...\n"] ∧
      (printToTerminal "Not enough cards..." (getTimesToAsk s).2).stdin = s.stdin.drop 1 ∧
      (printToTerminal "Not enough cards..." (getTimesToAsk s).2).cards = [] := by
  have hcards : (getTimesToAsk s).2.cards = [] := by simp [getTimesToAsk, h]
  exact ⟨askAction_on_empty s h, by simp [getTimesToAsk], by simp [getTimesToAsk],
    by simpa using hcards⟩

/-- C16, an instance: the empty deck asked with count 3. -/
theorem askAction_empty_witness :
    (askAction (session [] ["3", "Paris"])).map (fun s => (s.cards, s.stdout, s.stdin))
      = .ok ([], ["How many times to ask?\n", "Not enough cards...\n"], ["Paris"]) :=
  congrArg (Except.map fun s => (s.cards, s.stdout, s.stdin))
    (askAction_empty (session [] ["3", "Paris"]) rfl).1

/-- The running maximum of the first loop of `hardestCardAction`, started at
`start`: it is at least `start` and at least every counter, and it is `start`
or the counter of a card. -/
theorem foldl_highest (cards : List Card) (start : Int) :
    start ≤ cards.foldl (fun highest card =>
        if card.Mistakes > highest then card.Mistakes else highest) start ∧
      (∀ c ∈ cards, c.Mistakes ≤ cards.foldl (fun highest card =>
        if card.Mistakes > highest then card.Mistakes else highest) start) ∧
      (cards.foldl (fun highest card =>
        if card.Mistakes > highest then card.Mistakes else highest) start = start ∨
        ∃ c ∈ cards, c.Mistakes = cards.foldl (fun highest card =>
          if card.Mistakes > highest then card.Mistakes else highest) start) := by
  induction cards generalizing start with
  | nil => simp
  | cons card rest ih =>
    simp only [List.foldl_cons]
    obtain ⟨h1, h2, h3⟩ := ih (if card.Mistakes > start then card.Mistakes else start)
    refine ⟨?_, ?_, ?_⟩
    · refine le_trans ?_ h1
      split <;> omega
    · intro c hc
      rcases List.mem_cons.mp hc with rfl | hc
      · refine le_trans ?_ h1
        split <;> omega
      · exact h2 c hc
    · rcases h3 with h3 | ⟨c, hc, h3⟩
      · by_cases hgt : card.Mistakes > start
        · right
          rw [if_pos hgt] at h3
          exact ⟨card, List.mem_cons_self _ _, by rw [if_pos hgt]; exact h3.symm⟩
        · left
          rw [if_neg hgt] at h3 ⊢
          exact h3
      · exact Or.inr ⟨c, List.mem_cons_of_mem _ hc, h3⟩

/-- The value `highestMistakes` is zero exactly when no card has a counter above zero. -/
theorem highestMistakes_eq_zero_iff (cards : List Card) :
    highestMistakes cards = 0 ↔ ∀ c ∈ cards, c.Mistakes ≤ 0 := by
  obtain ⟨h1, h2, h3⟩ := foldl_highest cards 0
  unfold highestMistakes
  constructor
  · intro h c hc
    have := h2 c hc
    omega
  · intro h
    rcases h3 with h3 | ⟨c, hc, h3⟩
    · exact h3
    · have := h c hc
      omega

/-- The value `highestMistakes` of a deck with a counter above zero is the
largest counter of the deck. -/
theorem highestMistakes_eq (cards : List Card) (m : Int) (hpos : 0 < m)
    (hmax : ∀ c ∈ cards, c.Mistakes ≤ m) (hhit : ∃ c ∈ cards, c.Mistakes = m) :
    highestMistakes cards = m := by
  obtain ⟨h1, h2, h3⟩ := foldl_highest cards 0
  unfold highestMistakes
  obtain ⟨c, hc, hcm⟩ := hhit
  have hge := h2 c hc
  rcases h3 with h3 | ⟨d, hd, h3⟩
  · omega
  · have := hmax d hd
    omega

/-- C13: after `resetAction` every counter is 0 and `hardestCardAction` reports
that there are no cards with errors; it reports the same on every deck that is
empty or has no counter above zero. -/
theorem hardest_after_reset (mapOrder : List Card → List Card) (s : State) :
    (∀ c ∈ (resetAction s).cards, c.Mistakes = 0) ∧
      hardestCardAction mapOrder (resetAction s) =
        .ok (printToTerminal "There are no cards with errors." (resetAction s)) ∧
      ((s.cards = [] ∨ ∀ c ∈ s.cards, c.Mistakes ≤ 0) →
        hardestCardAction mapOrder s =
          .ok (printToTerminal "There are no cards with errors." s)) := by
  have quiet : ∀ t : State, (∀ c ∈ t.cards, c.Mistakes ≤ 0) →
      hardestCardAction mapOrder t =
        .ok (printToTerminal "There are no cards with errors." t) := by
    intro t ht
    unfold hardestCardAction
    split
    · rfl
    · dsimp only
      rw [if_pos ((highestMistakes_eq_zero_iff t.cards).mpr ht)]
      rfl
  have hzero : ∀ c ∈ (resetAction s).cards, c.Mistakes = 0 := by
    intro c hc
    simp only [resetAction, printToTerminal_cards, List.mem_map] at hc
    obtain ⟨d, _, rfl⟩ := hc
    rfl
  refine ⟨hzero, quiet _ (fun c hc => le_of_eq (hzero c hc)), ?_⟩
  rintro (hnil | hle)
  · exact quiet s (by rw [hnil]; simp)
  · exact quiet s hle

/-- C13, an instance: the scenario deck with counters 3 and 1, reset and then
asked for its hardest card. -/
theorem hardest_after_reset_witness :
    (hardestCardAction id
        (resetAction (session [⟨"capital", "Paris", 3⟩, ⟨"river", "Nile", 1⟩] []))).map
        (fun s => (s.cards, s.logs))
      = .ok (scenarioDeck,
          ["Card statistics have been reset.", "There are no cards with errors."]) :=
  congrArg (Except.map fun s => (s.cards, s.logs))
    (hardest_after_reset id (session [⟨"capital", "Paris", 3⟩, ⟨"river", "Nile", 1⟩] [])).2.1

/-- The terms under which the map holds entries after `mistakes[card.Term] = card`. -/
theorem mapPut_terms (mistakes : List Card) (card : Card) :
    (mapPut mistakes card).map (fun e => e.Term) =
      if card.Term ∈ mistakes.map (fun e => e.Term) then mistakes.map (fun e => e.Term)
      else mistakes.map (fun e => e.Term) ++ [card.Term] := by
  unfold mapPut
  have hany : mistakes.any (fun e => decide (e.Term = card.Term)) = true ↔
      card.Term ∈ mistakes.map (fun e => e.Term) := by
    simp only [List.any_eq_true, decide_eq_true_eq, List.mem_map]
  by_cases h : card.Term ∈ mistakes.map (fun e => e.Term)
  · rw [if_pos (hany.mpr h), if_pos h, List.map_map]
    apply List.map_congr_left
    intro e _
    simp only [Function.comp]
    split
    · rename_i heq
      exact heq.symm
    · rfl
  · rw [if_neg (fun hc => h (hany.mp hc)), if_neg h, List.map_append]
    rfl

/-- Every value of the map after `mistakes[card.Term] = card` is the card or
was in the map before. -/
theorem mem_mapPut (mistakes : List Card) (card e : Card) (he : e ∈ mapPut mistakes card) :
    e = card ∨ e ∈ mistakes := by
  unfold mapPut at he
  split at he
  · rw [List.mem_map] at he
    obtain ⟨d, hd, rfl⟩ := he
    split
    · exact Or.inl rfl
    · exact Or.inr hd
  · rcases List.mem_append.mp he with h | h
    · exact Or.inr h
    · exact Or.inl (List.mem_singleton.mp h)

/-- The map built by the second loop of `hardestCardAction`, started from the
map `start`: its entries have pairwise different terms, each is a card with
counter `highest`, and the terms present are those of `start` and those of
the cards with counter `highest`. -/
theorem foldl_hardestMap (cards : List Card) (highest : Int) (start : List Card)
    (hnodup : (start.map fun e => e.Term).Nodup)
    (hstart : ∀ e ∈ start, e.Mistakes = highest) :
    ((cards.foldl (fun mistakes card =>
        if card.Mistakes = highest then mapPut mistakes card else mistakes) start).map
          fun e => e.Term).Nodup ∧
      (∀ e ∈ cards.foldl (fun mistakes card =>
        if card.Mistakes = highest then mapPut mistakes card else mistakes) start,
          e.Mistakes = highest ∧ (e ∈ start ∨ e ∈ cards)) ∧
      (∀ t, t ∈ (cards.foldl (fun mistakes card =>
        if card.Mistakes = highest then mapPut mistakes card else mistakes) start).map
          (fun e => e.Term) ↔
        t ∈ start.map (fun e => e.Term) ∨ ∃ c ∈ cards, c.Mistakes = highest ∧ c.Term = t) := by
  induction cards generalizing start with
  | nil =>
    refine ⟨hnodup, fun e he => ⟨hstart e he, Or.inl he⟩, fun t => ?_⟩
    simp
  | cons card rest ih =>
    simp only [List.foldl_cons]
    by_cases hm : card.Mistakes = highest
    · rw [if_pos hm]
      have hterms := mapPut_terms start card
      have hnodup' : ((mapPut start card).map fun e => e.Term).Nodup := by
        rw [hterms]
        split
        · exact hnodup
        · rename_i hnot
          rw [List.nodup_append]
          refine ⟨hnodup, List.nodup_singleton _, ?_⟩
          intro a ha hb
          rw [List.mem_singleton] at hb
          exact hnot (hb ▸ ha)
      have hstart' : ∀ e ∈ mapPut start card, e.Mistakes = highest := by
        intro e he
        rcases mem_mapPut start card e he with rfl | h
        · exact hm
        · exact hstart e h
      obtain ⟨h1, h2, h3⟩ := ih (mapPut start card) hnodup' hstart'
      refine ⟨h1, ?_, ?_⟩
      · intro e he
        obtain ⟨hem, hwhere⟩ := h2 e he
        refine ⟨hem, ?_⟩
        rcases hwhere with h | h
        · rcases mem_mapPut start card e h with rfl | h'
          · exact Or.inr (List.mem_cons_self _ _)
          · exact Or.inl h'
        · exact Or.inr (List.mem_cons_of_mem _ h)
      · intro t
        rw [h3 t, hterms]
        constructor
        · rintro (h | ⟨c, hc, hcm, hct⟩)
          · split at h
            · exact Or.inl h
            · rcases List.mem_append.mp h with h | h
              · exact Or.inl h
              · rw [List.mem_singleton] at h
                exact Or.inr ⟨card, List.mem_cons_self _ _, hm, h.symm⟩
          · exact Or.inr ⟨c, List.mem_cons_of_mem _ hc, hcm, hct⟩
        · rintro (h | ⟨c, hc, hcm, hct⟩)
          · left
            split
            · exact h
            · exact List.mem_append_left _ h
          · rcases List.mem_cons.mp hc with rfl | hc
            · left
              split
              · rename_i hin
                exact hct ▸ hin
              · exact List.mem_append_right _ (by rw [hct]; exact List.mem_singleton_self _)
            · exact Or.inr ⟨c, hc, hcm, hct⟩
    · rw [if_neg hm]
      obtain ⟨h1, h2, h3⟩ := ih start hnodup hstart
      refine ⟨h1, ?_, ?_⟩
      · intro e he
        obtain ⟨hem, hwhere⟩ := h2 e he
        exact ⟨hem, hwhere.imp id (List.mem_cons_of_mem _)⟩
      · intro t
        rw [h3 t]
        constructor
        · rintro (h | ⟨c, hc, hcm, hct⟩)
          · exact Or.inl h
          · exact Or.inr ⟨c, List.mem_cons_of_mem _ hc, hcm, hct⟩
        · rintro (h | ⟨c, hc, hcm, hct⟩)
          · exact Or.inl h
          · rcases List.mem_cons.mp hc with rfl | hc
            · exact absurd hcm hm
            · exact Or.inr ⟨c, hc, hcm, hct⟩

/-- The map of `hardestCardAction`: pairwise different terms, every entry a
card of the deck with counter `highest`, and one entry for the term of every
such card. -/
theorem hardestMap_spec (cards : List Card) (highest : Int) :
    ((hardestMap cards highest).map fun e => e.Term).Nodup ∧
      (∀ e ∈ hardestMap cards highest, e.Mistakes = highest ∧ e ∈ cards) ∧
      (∀ t, t ∈ (hardestMap cards highest).map (fun e => e.Term) ↔
        ∃ c ∈ cards, c.Mistakes = highest ∧ c.Term = t) := by
  obtain ⟨h1, h2, h3⟩ := foldl_hardestMap cards highest [] (by simp) (by simp)
  refine ⟨h1, ?_, ?_⟩
  · intro e he
    obtain ⟨hm, hw⟩ := h2 e he
    exact ⟨hm, by simpa using hw⟩
  · intro t
    have := h3 t
    unfold hardestMap
    rw [this]
    simp

/-- The text `printMistakes` is at least as long as it started, and longer
when the loop visits an entry. -/
theorem foldl_terms_length (visited : List Card) (start : String) :
    start.length ≤ (visited.foldl (fun acc mistake =>
        acc ++ ("\"" ++ mistake.Term ++ "\", ")) start).length ∧
      (visited ≠ [] → start.length < (visited.foldl (fun acc mistake =>
        acc ++ ("\"" ++ mistake.Term ++ "\", ")) start).length) := by
  induction visited generalizing start with
  | nil => simp
  | cons e rest ih =>
    simp only [List.foldl_cons]
    obtain ⟨h1, _⟩ := ih (start ++ ("\"" ++ e.Term ++ "\", "))
    have hgrow : start.length < (start ++ ("\"" ++ e.Term ++ "\", ")).length := by
      simp only [String.length_append]
      have : ("\", " : String).length = 3 := by decide
      have : ("\"" : String).length = 1 := by decide
      omega
    exact ⟨by omega, fun _ => by omega⟩

/-- The count `mistakesCount` after a loop over entries that all have counter
`highest` and are not none is `highest`. -/
theorem foldl_last_mistakes (visited : List Card) (highest start : Int)
    (hall : ∀ e ∈ visited, e.Mistakes = highest) (hne : visited ≠ []) :
    visited.foldl (fun _ mistake => mistake.Mistakes) start = highest := by
  induction visited generalizing start with
  | nil => exact absurd rfl hne
  | cons e rest ih =>
    simp only [List.foldl_cons]
    cases rest with
    | nil => exact hall e (List.mem_cons_self _ _)
    | cons e2 rest2 =>
      exact ih _ (fun x hx => hall x (List.mem_cons_of_mem _ hx)) (by simp)

/-- The two messages of `hardestCardAction` differ: the seventeenth character
of the one is a blank, of the other the letter s. -/
theorem hardest_messages_differ (term list : String) (n n' : Int) :
    hardestCardMsg term n ≠ hardestCardsMsg list n' := by
  intro h
  have h1 : (hardestCardMsg term n).toList[16]? = some ' ' := by
    simp [hardestCardMsg, String.toList]
  have h2 : (hardestCardsMsg list n').toList[16]? = some 's' := by
    simp [hardestCardsMsg, String.toList]
  rw [h, h2] at h1
  exact absurd h1 (by decide)

/-- C11, as amended: on a deck whose largest counter `m` is above zero,
`hardestCardAction` reports the singular message, naming the term and `m`,
when all cards with counter `m` carry one and the same term, as is the case
when only one card has counter `m`; it reports the plural message with `m`
when cards with counter `m` carry different terms; the two messages differ. -/
theorem hardestCardAction_report (mapOrder : List Card → List Card)
    (hperm : ∀ l, (mapOrder l).Perm l) (s : State) (m : Int) (hpos : 0 < m)
    (hmax : ∀ c ∈ s.cards, c.Mistakes ≤ m) (hhit : ∃ c ∈ s.cards, c.Mistakes = m) :
    (∀ t : String, (∀ c ∈ s.cards, c.Mistakes = m → c.Term = t) →
      hardestCardAction mapOrder s = .ok (printToTerminal (hardestCardMsg t m) s)) ∧
    ((∃ c ∈ s.cards, ∃ d ∈ s.cards, c.Mistakes = m ∧ d.Mistakes = m ∧ c.Term ≠ d.Term) →
      ∃ list : String,
        hardestCardAction mapOrder s = .ok (printToTerminal (hardestCardsMsg list m) s)) ∧
    (∀ (t list : String), hardestCardMsg t m ≠ hardestCardsMsg list m) ∧
    (∀ t : String, hardestCardMsg t m =
      "The hardest card is \"" ++ t ++ "\". You have " ++ toString m ++
        " errors answering it.") := by
  have hhigh : highestMistakes s.cards = m := highestMistakes_eq s.cards m hpos hmax hhit
  obtain ⟨hnodup, hentries, hterms⟩ := hardestMap_spec s.cards m
  have hlen : ¬ s.cards.length = 0 := by
    obtain ⟨c, hc, _⟩ := hhit
    intro h0
    rw [List.length_eq_zero.mp h0] at hc
    simp at hc
  have hm0 : ¬ m = 0 := by omega
  refine ⟨?_, ?_, fun t list => hardest_messages_differ t list m m, fun _ => rfl⟩
  · intro t hall
    have hone : ∃ e, hardestMap s.cards m = [e] ∧ e.Term = t ∧ e.Mistakes = m := by
      have hsame : ∀ e ∈ hardestMap s.cards m, e.Term = t := fun e he =>
        hall e (hentries e he).2 (hentries e he).1
      obtain ⟨c, hc, hcm⟩ := hhit
      have hin : c.Term ∈ (hardestMap s.cards m).map (fun e => e.Term) :=
        (hterms c.Term).mpr ⟨c, hc, hcm, rfl⟩
      cases hmap : hardestMap s.cards m with
      | nil => rw [hmap] at hin; simp at hin
      | cons e rest =>
        cases rest with
        | nil =>
          exact ⟨e, rfl, hsame e (by rw [hmap]; simp), (hentries e (by rw [hmap]; simp)).1⟩
        | cons e2 rest2 =>
          rw [hmap] at hnodup
          have h1 := hsame e (by rw [hmap]; simp)
          have h2 := hsame e2 (by rw [hmap]; simp)
          simp [h1, h2] at hnodup
    obtain ⟨e, hmap, het, hem⟩ := hone
    unfold hardestCardAction
    rw [if_neg hlen]
    dsimp only
    rw [hhigh, if_neg hm0, hmap, if_pos (by rfl), (hperm [e]).eq_singleton]
    simp only [het, hem]
  · rintro ⟨c, hc, d, hd, hcm, hdm, hne⟩
    have hcin : c.Term ∈ (hardestMap s.cards m).map (fun e => e.Term) :=
      (hterms c.Term).mpr ⟨c, hc, hcm, rfl⟩
    have hdin : d.Term ∈ (hardestMap s.cards m).map (fun e => e.Term) :=
      (hterms d.Term).mpr ⟨d, hd, hdm, rfl⟩
    have hlen1 : ¬ (hardestMap s.cards m).length = 1 := by
      intro h1
      obtain ⟨e, he⟩ := List.length_eq_one.mp h1
      rw [he] at hcin hdin
      simp only [List.map_cons, List.map_nil, List.mem_singleton] at hcin hdin
      exact hne (hcin.trans hdin.symm)
    have hvis : mapOrder (hardestMap s.cards m) ≠ [] := by
      intro hnil
      have := (hperm (hardestMap s.cards m)).length_eq
      rw [hnil] at this
      have hempty : hardestMap s.cards m = [] := List.length_eq_zero.mp this.symm
      rw [hempty] at hcin
      simp at hcin
    have hall : ∀ e ∈ mapOrder (hardestMap s.cards m), e.Mistakes = m := fun e he =>
      (hentries e ((hperm _).mem_iff.mp he)).1
    have hjoin : ¬ (joinTerms (mapOrder (hardestMap s.cards m))).length = 0 := by
      have := (foldl_terms_length (mapOrder (hardestMap s.cards m)) "").2 hvis
      unfold joinTerms
      omega
    refine ⟨String.mk (joinTerms (mapOrder (hardestMap s.cards m))).toList.dropLast, ?_⟩
    unfold hardestCardAction
    rw [if_neg hlen]
    dsimp only
    rw [hhigh, if_neg hm0, if_neg hlen1, if_neg hjoin,
      foldl_last_mistakes _ m 0 hall hvis]

/-- C11, an instance: a deck with one card at 3 mistakes and the others at 0
reports that card alone with `3 errors`. -/
theorem hardestCardAction_report_witness :
    (hardestCardAction id
        (session [⟨"capital", "Paris", 0⟩, ⟨"river", "Nile", 3⟩, ⟨"lake", "Baikal", 0⟩] [])).map
        (fun s => s.logs)
      = .ok ["The hardest card is \"river\". You have 3 errors answering it."] :=
  congrArg (Except.map fun s => s.logs)
    ((hardestCardAction_report id (fun _ => List.Perm.refl _)
      (session [⟨"capital", "Paris", 0⟩, ⟨"river", "Nile", 3⟩, ⟨"lake", "Baikal", 0⟩] [])
      3 (by decide) (by decide) (by decide)).1 "river" (by decide))

/-- C11, as stated, fails: in the deck a/x, a/y both cards have 3 mistakes, the
largest count, and the report is the singular message. -/
theorem hardestCardAction_shared_term :
    (hardestCardAction id (session [⟨"a", "x", 3⟩, ⟨"a", "y", 3⟩] [])).map (fun s => s.logs)
      = .ok ["The hardest card is \"a\". You have 3 errors answering it."] ∧
    (([⟨"a", "x", 3⟩, ⟨"a", "y", 3⟩] : List Card).filter
      fun c => decide (c.Mistakes = 3)).length = 2 :=
  ⟨rfl, by decide⟩

/-- A list with the same entries as a list of two is that list or its reverse. -/
theorem perm_pair {l : List Card} {x y : Card} (h : l.Perm [x, y]) :
    l = [x, y] ∨ l = [y, x] := by
  have hlen := h.length_eq
  match l, hlen with
  | [p, q], _ =>
    have hp : p ∈ [x, y] := h.mem_iff.mp (by simp)
    have hq : q ∈ [x, y] := h.mem_iff.mp (by simp)
    have hx : x ∈ [p, q] := h.mem_iff.mpr (by simp)
    have hy : y ∈ [p, q] := h.mem_iff.mpr (by simp)
    simp only [List.mem_cons, List.mem_singleton, List.not_mem_nil, or_false] at hp hq hx hy
    rcases hp with rfl | rfl <;> rcases hq with rfl | rfl <;> simp_all

/-- C12: on the deck a/x, b/y with 2 mistakes each, whatever the order in which
the map is visited, the plural message keeps a comma after the last term:
`"a", "b",.` or `"b", "a",.` where the claim has `"a", "b".` -/
theorem hardestCardAction_trailing_comma (mapOrder : List Card → List Card)
    (hperm : ∀ l, (mapOrder l).Perm l) :
    (hardestCardAction mapOrder (session [⟨"a", "x", 2⟩, ⟨"b", "y", 2⟩] [])).map
        (fun s => s.logs)
      = .ok ["The hardest cards are \"a\", \"b\",. You have 2 errors answering them."] ∨
    (hardestCardAction mapOrder (session [⟨"a", "x", 2⟩, ⟨"b", "y", 2⟩] [])).map
        (fun s => s.logs)
      = .ok ["The hardest cards are \"b\", \"a\",. You have 2 errors answering them."] := by
  have hrun : hardestCardAction mapOrder (session [⟨"a", "x", 2⟩, ⟨"b", "y", 2⟩] []) =
      (fun visited : List Card =>
        if (joinTerms visited).length = 0 then .error .panic
        else .ok (printToTerminal
          (hardestCardsMsg (String.mk (joinTerms visited).toList.dropLast)
            (visited.foldl (fun _ mistake => mistake.Mistakes) (0 : Int)))
          (session [⟨"a", "x", 2⟩, ⟨"b", "y", 2⟩] [])))
        (mapOrder [⟨"a", "x", 2⟩, ⟨"b", "y", 2⟩]) := rfl
  rw [hrun]
  rcases perm_pair (hperm [⟨"a", "x", 2⟩, ⟨"b", "y", 2⟩]) with h | h
  · left
    rw [h]
    rfl
  · right
    rw [h]
    rfl

/-- C12, an instance: the map visited in the order of the deck. -/
theorem hardestCardAction_trailing_comma_witness :
    (hardestCardAction id (session [⟨"a", "x", 2⟩, ⟨"b", "y", 2⟩] [])).map (fun s => s.logs)
      = .ok ["The hardest cards are \"a\", \"b\",. You have 2 errors answering them."] :=
  (hardestCardAction_trailing_comma id (fun _ => List.Perm.refl _)).resolve_right
    (by
      intro h
      have h2 : (hardestCardAction id (session [⟨"a", "x", 2⟩, ⟨"b", "y", 2⟩] [])).map
          (fun s => s.logs)
        = .ok ["The hardest cards are \"a\", \"b\",. You have 2 errors answering them."] := rfl
      rw [h2] at h
      exact absurd (Except.ok.inj h) (by decide))

/-! ## What the quiz prints -/

/-- One round of the quiz over a deck that is not empty prints the prompt for
the selected card and the report for the answer read, and logs the prompt, the
answer and the report. -/
theorem askIter_trace (i : Nat) (s : State) (hne : s.cards ≠ []) :
    ∃ s1, askIter i s = .ok s1 ∧
      s1.stdout = s.stdout ++
        [askPrompt (termAt s.cards (i % s.cards.length)) ++ "\n",
          roundReport s.cards (definitionAt s.cards (i % s.cards.length))
            (answerAt s.stdin 0) ++ "\n"] ∧
      s1.logs = s.logs ++
        [askPrompt (termAt s.cards (i % s.cards.length)), answerAt s.stdin 0,
          roundReport s.cards (definitionAt s.cards (i % s.cards.length))
            (answerAt s.stdin 0)] := by
  have hpos : 0 < s.cards.length := List.length_pos.mpr hne
  have hidx : i % s.cards.length < s.cards.length := Nat.mod_lt _ hpos
  obtain ⟨card, hcard⟩ : ∃ card, s.cards[i % s.cards.length]? = some card :=
    ⟨s.cards[i % s.cards.length], List.getElem?_eq_getElem hidx⟩
  have hans : (getInput (printToTerminal (askPrompt card.Term) s)).1 = answerAt s.stdin 0 := by
    rw [getInput_fst, printToTerminal_stdin]
    unfold answerAt
    cases s.stdin <;> simp
  have hterm : termAt s.cards (i % s.cards.length) = card.Term := by
    simp [termAt, hcard]
  have hdef : definitionAt s.cards (i % s.cards.length) = card.Definition := by
    simp [definitionAt, hcard]
  unfold askIter
  simp only [askIndex_eq_mod, hcard, hans, getInput_cards, printToTerminal_cards, hterm, hdef]
  unfold roundReport
  by_cases hright : answerAt s.stdin 0 = card.Definition
  · simp only [if_pos hright]
    exact ⟨_, rfl, by simp, by simp [hans, hright]⟩
  · simp only [if_neg hright]
    cases s.cards.find? (fun fCard => decide (fCard.Definition = answerAt s.stdin 0)) with
    | none => exact ⟨_, rfl, by simp, by simp [hans]⟩
    | some f => exact ⟨_, rfl, by simp, by simp [hans]⟩

/-- The term a scan for a definition finds depends on the terms and
definitions of the deck alone. -/
theorem find_term_of_keys {cards cards' : List Card}
    (hkeys : cards'.map Card.key = cards.map Card.key) (answer : String) :
    (cards'.find? (fun fCard => decide (fCard.Definition = answer))).map (fun f => f.Term) =
      (cards.find? (fun fCard => decide (fCard.Definition = answer))).map (fun f => f.Term) := by
  induction cards generalizing cards' with
  | nil =>
    have : cards' = [] := by simpa using hkeys
    rw [this]
  | cons c rest ih =>
    cases cards' with
    | nil => simp at hkeys
    | cons c' rest' =>
      simp only [List.map_cons, List.cons.injEq] at hkeys
      obtain ⟨hk, hrest⟩ := hkeys
      have hterm : c'.Term = c.Term := congrArg Prod.fst hk
      have hdef : c'.Definition = c.Definition := congrArg Prod.snd hk
      simp only [List.find?_cons, hdef]
      by_cases h : c.Definition = answer
      · simp [h, hterm]
      · simp only [h, decide_False]
        exact ih hrest

/-- The prompts and the reports of the quiz depend on the terms and
definitions of the deck alone. -/
theorem trace_of_keys {cards cards' : List Card}
    (hkeys : cards'.map Card.key = cards.map Card.key) :
    (∀ j, termAt cards' j = termAt cards j) ∧
      (∀ j, definitionAt cards' j = definitionAt cards j) ∧
      (∀ d a, roundReport cards' d a = roundReport cards d a) := by
  have hget : ∀ j : Nat, cards'[j]?.map Card.key = cards[j]?.map Card.key := by
    intro j
    rw [← List.getElem?_map, ← List.getElem?_map, hkeys]
  refine ⟨?_, ?_, ?_⟩
  · intro j
    have := congrArg (fun o => (o.map Prod.fst).getD "") (hget j)
    simpa [termAt, Card.key, Option.map_map, Function.comp] using this
  · intro j
    have := congrArg (fun o => (o.map Prod.snd).getD "") (hget j)
    simpa [definitionAt, Card.key, Option.map_map, Function.comp] using this
  · intro d a
    have := find_term_of_keys hkeys a
    unfold roundReport
    cases h' : cards'.find? (fun fCard => decide (fCard.Definition = a)) <;>
      cases h : cards.find? (fun fCard => decide (fCard.Definition = a)) <;>
      simp_all

/-- One round of the quiz changes no term and no definition. -/
theorem askIter_keys (i : Nat) (s s1 : State) (hne : s.cards ≠ [])
    (h : askIter i s = .ok s1) : s1.cards.map Card.key = s.cards.map Card.key := by
  obtain ⟨s1', h1, _, hlen, hcards⟩ := askIter_cards i s hne
  rw [h] at h1
  cases h1
  exact keys_eq_of_counters hlen fun j c hc => ⟨_, hcards j c hc⟩

/-- The quiz loop over a deck that is not empty prints, round after round,
the prompt for the card at index `(i + t) mod n` and the report for the answer
read in that round, and logs each prompt, answer and report. -/
theorem askLoop_trace (rounds i : Nat) (s : State) (hne : s.cards ≠ []) :
    ∃ s', askLoop rounds i s = .ok s' ∧
      s'.stdout = s.stdout ++ (List.range rounds).flatMap (fun t =>
        [askPrompt (termAt s.cards ((i + t) % s.cards.length)) ++ "\n",
          roundReport s.cards (definitionAt s.cards ((i + t) % s.cards.length))
            (answerAt s.stdin t) ++ "\n"]) ∧
      s'.logs = s.logs ++ (List.range rounds).flatMap (fun t =>
        [askPrompt (termAt s.cards ((i + t) % s.cards.length)), answerAt s.stdin t,
          roundReport s.cards (definitionAt s.cards ((i + t) % s.cards.length))
            (answerAt s.stdin t)]) := by
  induction rounds generalizing i s with
  | zero => exact ⟨s, rfl, by simp, by simp⟩
  | succ rounds ih =>
    obtain ⟨s1, h1, _, hlen1, _⟩ := askIter_cards i s hne
    obtain ⟨s1', h1', hout1, hlog1⟩ := askIter_trace i s hne
    rw [h1] at h1'
    cases h1'
    have hin1 : s1.stdin = s.stdin.drop 1 := by
      obtain ⟨s1', h1', hin, _⟩ := askIter_cards i s hne
      rw [h1] at h1'
      cases h1'
      exact hin
    have hkeys := askIter_keys i s s1 hne h1
    obtain ⟨hterm, hdef, hrep⟩ := trace_of_keys hkeys
    have hne1 : s1.cards ≠ [] := by
      intro h
      rw [h] at hlen1
      exact hne (List.length_eq_zero.mp hlen1.symm)
    obtain ⟨s', h', hout', hlog'⟩ := ih (i + 1) s1 hne1
    have hshift : ∀ t, i + 1 + t = i + (t + 1) := fun t => by omega
    refine ⟨s', ?_, ?_, ?_⟩
    · simp only [askLoop, bind, Except.bind, h1, h']
    · rw [hout', hout1, List.range_succ_eq_map, List.flatMap_cons, List.flatMap_map,
        List.append_assoc]
      simp only [hterm, hdef, hrep, hlen1, hin1, hshift, ← answerAt_succ, Nat.add_zero,
        Nat.succ_eq_add_one]
    · rw [hlog', hlog1, List.range_succ_eq_map, List.flatMap_cons, List.flatMap_map,
        List.append_assoc]
      simp only [hterm, hdef, hrep, hlen1, hin1, hshift, ← answerAt_succ, Nat.add_zero,
        Nat.succ_eq_add_one]

/-- C15: for a deck of `n` cards that is not empty and a requested count `k`,
`askAction` returns having printed, after its question, `max(k, 0)` pairs of a
prompt and a report, the prompt of round `t` showing the term of the card at
index `t mod n`.  A deck of 2 cards asked 5 times is prompted with the cards at
indices 0, 1, 0, 1, 0. -/
theorem askAction_prompts :
    (∀ s : State, s.cards ≠ [] →
      ∃ s', askAction s = .ok s' ∧
        s'.stdout = s.stdout ++ ["How many times to ask?\n"] ++
          (List.range (getTimesToAsk s).1.toNat).flatMap (fun t =>
            [askPrompt (termAt s.cards (t % s.cards.length)) ++ "\n",
              roundReport s.cards (definitionAt s.cards (t % s.cards.length))
                (answerAt (getTimesToAsk s).2.stdin t) ++ "\n"])) ∧
    (askAction (session scenarioDeck ["5", "Paris", "Nile", "Paris", "Nile", "Paris"])).map
        (fun s => s.stdout)
      = .ok ["How many times to ask?\n",
          "Print the definition of \"capital\":\n", "Correct!\n",
          "Print the definition of \"river\":\n", "Correct!\n",
          "Print the definition of \"capital\":\n", "Correct!\n",
          "Print the definition of \"river\":\n", "Correct!\n",
          "Print the definition of \"capital\":\n", "Correct!\n"] := by
  refine ⟨?_, rfl⟩
  intro s hne
  have hsame : (getTimesToAsk s).2.cards = s.cards := by simp [getTimesToAsk]
  have hne' : (getTimesToAsk s).2.cards ≠ [] := by rw [hsame]; exact hne
  obtain ⟨s', h', hout, _⟩ := askLoop_trace (getTimesToAsk s).1.toNat 0 _ hne'
  refine ⟨s', ?_, ?_⟩
  · unfold askAction
    dsimp only
    rw [if_neg (fun h0 => hne' (List.length_eq_zero.mp h0))]
    exact h'
  · rw [hout]
    simp only [hsame, Nat.zero_add]
    simp [getTimesToAsk]

/-- C15, an instance: the scenario deck asked three times is prompted with
capital, river and capital again. -/
theorem askAction_prompts_witness :
    ∃ s', askAction (session scenarioDeck ["3", "Paris", "Nile", "x"]) = .ok s' ∧
      s'.stdout = [] ++ ["How many times to ask?\n"] ++
        (List.range 3).flatMap (fun t =>
          [askPrompt (termAt scenarioDeck (t % 2)) ++ "\n",
            roundReport scenarioDeck (definitionAt scenarioDeck (t % 2))
              (answerAt ["Paris", "Nile", "x"] t) ++ "\n"]) :=
  askAction_prompts.1 (session scenarioDeck ["3", "Paris", "Nile", "x"]) (by decide)

/-! ## The session log -/

theorem reads_add (stdin : List String) (a b : Nat) :
    reads stdin (a + b) = reads stdin a ++ reads (stdin.drop a) b := by
  unfold reads
  rw [List.range_add, List.map_append, List.map_map]
  congr 1
  apply List.map_congr_left
  intro t _
  simp only [Function.comp, answerAt, List.getElem?_drop]

theorem reads_length (stdin : List String) (n : Nat) : (reads stdin n).length = n := by
  simp [reads]

@[simp] theorem printToTerminal_terminal (msg : String) (s : State) :
    (printToTerminal msg s).terminal = s.terminal ++ [.println msg] := rfl

@[simp] theorem getInput_terminal (s : State) :
    (getInput s).2.terminal = s.terminal ++ [.read (getInput s).1] := by
  unfold getInput; cases s.stdin <;> rfl

theorem Logged.refl (s : State) : Logged s s :=
  ⟨[], by simp, by simp, by simp, by simp, by simp [reads], by simp⟩

theorem Logged.trans {s t u : State} (h1 : Logged s t) (h2 : Logged t u) : Logged s u := by
  obtain ⟨e1, ht1, hl1, hn1, ho1, hr1, hi1⟩ := h1
  obtain ⟨e2, ht2, hl2, hn2, ho2, hr2, hi2⟩ := h2
  refine ⟨e1 ++ e2, ?_, ?_, ?_, ?_, ?_, ?_⟩
  · rw [ht2, ht1, List.append_assoc]
  · rw [hl2, hl1, List.filterMap_append, List.append_assoc]
  · intro e he
    rcases List.mem_append.mp he with h | h
    · exact hn1 e h
    · exact hn2 e h
  · rw [ho2, ho1, List.filterMap_append, List.append_assoc]
  · rw [List.filterMap_append, List.length_append, reads_add, ← hi1, ← hr1, ← hr2]
  · rw [hi2, hi1, List.drop_drop, List.filterMap_append, List.length_append, Nat.add_comm]

/-- A state that differs from a logged one in the deck and the files alone is
logged as well. -/
theorem Logged.of_eq {s t u : State} (h : Logged s t) (hl : u.logs = t.logs)
    (ho : u.stdout = t.stdout) (hi : u.stdin = t.stdin) (ht : u.terminal = t.terminal) :
    Logged s u := by
  obtain ⟨e, ht1, hl1, hn1, ho1, hr1, hi1⟩ := h
  exact ⟨e, by rw [ht, ht1], by rw [hl, hl1], hn1, by rw [ho, ho1], hr1, by rw [hi, hi1]⟩

theorem Logged.print {s t : State} (h : Logged s t) (msg : String) :
    Logged s (printToTerminal msg t) :=
  h.trans ⟨[.println msg], rfl, rfl, by simp [Event.entry], rfl, rfl, rfl⟩

theorem Logged.input {s t : State} (h : Logged s t) : Logged s (getInput t).2 :=
  h.trans ⟨[.read (getInput t).1], by simp, by simp [Event.entry], by simp [Event.entry],
    by simp [Event.output], by
      have : reads t.stdin 1 = [(getInput t).1] := by
        rw [← answerAt_zero]
        rfl
      simp [Event.input, this], by simp [Event.input]⟩

theorem retryLoop_logged (msg : String → String) (fuel : Nat) (cur : String) (s : State)
    (out : String) (s' : State) (h : retryLoop msg fuel cur s = .ok (out, s')) :
    Logged s s' := by
  induction fuel generalizing cur s with
  | zero => simp [retryLoop] at h
  | succ fuel ih =>
    unfold retryLoop at h
    split at h
    · exact (((Logged.refl s).print _).input).trans (ih _ _ h)
    · cases h
      exact Logged.refl _

theorem createCard_logged (s : State) (card : Card) (s' : State)
    (h : createCard s = .ok (card, s')) : Logged s s' := by
  unfold createCard at h
  simp only [bind, Except.bind, pure, Except.pure] at h
  split at h
  · cases h
  · rename_i v1 h1
    obtain ⟨term, s2⟩ := v1
    split at h
    · cases h
    · rename_i v2 h2
      obtain ⟨definition, s4⟩ := v2
      simp only [Except.ok.injEq, Prod.mk.injEq] at h
      obtain ⟨_, rfl⟩ := h
      have a1 := retryLoop_logged _ _ _ _ _ _ h1
      have a2 := retryLoop_logged _ _ _ _ _ _ h2
      exact ((((Logged.refl s).print _).input).trans a1).trans
        ((((Logged.refl s2).print _).input).trans a2)

theorem addAction_logged (s s' : State) (h : addAction s = .ok s') : Logged s s' := by
  unfold addAction at h
  simp only [bind, Except.bind, pure, Except.pure] at h
  split at h
  · cases h
  · rename_i v hv
    obtain ⟨card, s1⟩ := v
    cases h
    exact ((createCard_logged _ _ _ hv).of_eq (u := { s1 with cards := s1.cards ++ [card] })
      rfl rfl rfl rfl).print _

theorem removeCard_logged (term : String) (s s' : State) (h : removeCard term s = .ok s') :
    Logged s s' := by
  unfold removeCard at h
  simp only [bind, Except.bind, pure, Except.pure] at h
  split at h
  · cases h
  · rename_i v hv
    obtain ⟨arr, len⟩ := v
    cases h
    exact ((Logged.refl s).of_eq (u := { s with cards := arr.take len }) rfl rfl rfl rfl).print _

theorem removeAction_logged (s s' : State) (h : removeAction s = .ok s') : Logged s s' := by
  unfold removeAction at h
  dsimp only at h
  split at h
  · exact (((Logged.refl s).print _).input).trans (removeCard_logged _ _ _ h)
  · cases h
    exact (((Logged.refl s).print _).input).print _

theorem readDeck_logged (J : Json) (fileName : String) (s : State)
    (r : Option (List Card)) (s1 : State) (h : readDeck J fileName s = .ok (r, s1)) :
    Logged s s1 := by
  unfold readDeck at h
  split at h
  · split at h
    · cases h
    · cases h
      exact Logged.refl _
  · cases h
    exact (Logged.refl _).print _

theorem importAction_logged (J : Json) (fileName : String) (s s' : State)
    (h : importAction J fileName s = .ok s') : Logged s s' := by
  unfold importAction at h
  simp only [bind, Except.bind, pure, Except.pure] at h
  split at h
  · cases h
  · rename_i v hv
    obtain ⟨r, s1⟩ := v
    have h1 := readDeck_logged J fileName s r s1 hv
    cases r with
    | none =>
      cases h
      exact h1
    | some newCards =>
      cases h
      exact (h1.print _).of_eq rfl rfl rfl rfl

theorem readFromFile_logged (fileName : String) (s s' : State)
    (h : readFromFile fileName s = .ok s') : Logged s s' := by
  unfold readFromFile at h
  split at h
  · cases h
  · cases h
    exact (Logged.refl s).of_eq rfl rfl rfl rfl

theorem exportAction_logged (J : Json) (fileName : String) (s s' : State)
    (h : exportAction J fileName s = .ok s') : Logged s s' := by
  unfold exportAction saveInFile at h
  simp only [bind, Except.bind, pure, Except.pure] at h
  split at h
  · cases h
  · rename_i s2 h2
    cases h
    split at h2
    · cases h2
    · rename_i s1 h1
      split at h2
      · cases h2
      · cases h2
        exact ((readFromFile_logged _ _ _ h1).of_eq rfl rfl rfl rfl).print _

theorem askIter_logged (i : Nat) (s s' : State) (h : askIter i s = .ok s') : Logged s s' := by
  unfold askIter at h
  dsimp only at h
  split at h
  · cases h
  · rename_i card _
    split at h
    · cases h
      exact (((Logged.refl s).print _).input).print _
    · split at h
      · cases h
        exact ((((Logged.refl s).print _).input).of_eq rfl rfl rfl rfl).print _
      · cases h
        exact ((((Logged.refl s).print _).input).of_eq rfl rfl rfl rfl).print _

theorem askLoop_logged (rounds i : Nat) (s s' : State) (h : askLoop rounds i s = .ok s') :
    Logged s s' := by
  induction rounds generalizing i s with
  | zero =>
    cases h
    exact Logged.refl _
  | succ rounds ih =>
    simp only [askLoop, bind, Except.bind] at h
    split at h
    · cases h
    · rename_i s1 h1
      exact (askIter_logged i s s1 h1).trans (ih _ _ h)

theorem askAction_logged (s s' : State) (h : askAction s = .ok s') : Logged s s' := by
  unfold askAction getTimesToAsk at h
  dsimp only at h
  split at h
  · cases h
    exact (((Logged.refl s).print _).input).print _
  · exact (((Logged.refl s).print _).input).trans (askLoop_logged _ _ _ _ h)

theorem hardestCardAction_logged (mapOrder : List Card → List Card) (s s' : State)
    (h : hardestCardAction mapOrder s = .ok s') : Logged s s' := by
  unfold hardestCardAction at h
  dsimp only at h
  split at h
  · cases h
    exact (Logged.refl s).print _
  · split at h
    · cases h
      exact (Logged.refl s).print _
    · split at h
      · split at h
        · cases h
        · cases h
          exact (Logged.refl s).print _
      · split at h
        · cases h
        · cases h
          exact (Logged.refl s).print _

theorem logAction_logged (marshalLogs : List String → String) (s s' : State)
    (h : logAction marshalLogs s = .ok s') : Logged s s' := by
  unfold logAction getFileName at h
  simp only [bind, Except.bind, pure, Except.pure] at h
  split at h
  · cases h
  · rename_i s1 h1
    cases h
    exact (((((Logged.refl s).print _).input).trans (readFromFile_logged _ _ _ h1)).of_eq
      rfl rfl rfl rfl).print _

/-- Every known command that returns leaves a logged state. -/
theorem makeActionForInput_logged (E : Env) (input : String) (s s' : State)
    (hknown : input ∈ commands) (h : makeActionForInput E input s = .ok s') :
    Logged s s' := by
  unfold makeActionForInput at h
  by_cases c1 : input = "add"
  · rw [if_pos c1] at h
    exact addAction_logged s s' h
  rw [if_neg c1] at h
  by_cases c2 : input = "remove"
  · rw [if_pos c2] at h
    exact removeAction_logged s s' h
  rw [if_neg c2] at h
  by_cases c3 : input = "import"
  · rw [if_pos c3] at h
    exact (((Logged.refl s).print _).input).trans (importAction_logged _ _ _ _ h)
  rw [if_neg c3] at h
  by_cases c4 : input = "export"
  · rw [if_pos c4] at h
    exact (((Logged.refl s).print _).input).trans (exportAction_logged _ _ _ _ h)
  rw [if_neg c4] at h
  by_cases c5 : input = "ask"
  · rw [if_pos c5] at h
    exact askAction_logged s s' h
  rw [if_neg c5] at h
  by_cases c6 : input = "log"
  · rw [if_pos c6] at h
    exact logAction_logged _ s s' h
  rw [if_neg c6] at h
  by_cases c7 : input = "hardest card"
  · rw [if_pos c7] at h
    exact hardestCardAction_logged _ s s' h
  rw [if_neg c7] at h
  by_cases c8 : input = "reset stats"
  · rw [if_pos c8] at h
    cases h
    exact (Logged.of_eq (t := s) (Logged.refl s) rfl rfl rfl rfl).print _
  rw [if_neg c8] at h
  by_cases c9 : input = "exit"
  · rw [if_pos c9] at h
    simp only [bind, pure, Except.pure] at h
    have tail : ∀ t : State, Logged s t →
        (if E.exportFileName ≠ "" then
          (exportAction E.json E.exportFileName t).bind fun y =>
            Except.ok (printToTerminal "Bye bye!" y)
          else (Except.ok t).bind fun y => Except.ok (printToTerminal "Bye bye!" y))
          = Except.ok s' → Logged s s' := by
      intro t ht h2
      by_cases he : E.exportFileName ≠ ""
      · rw [if_pos he] at h2
        cases hv : exportAction E.json E.exportFileName t with
        | error e =>
          rw [hv] at h2
          cases h2
        | ok v =>
          rw [hv] at h2
          cases h2
          exact (ht.trans (exportAction_logged _ _ _ _ hv)).print _
      · rw [if_neg he] at h2
        cases h2
        exact ht.print _
    by_cases hi : E.importFileName ≠ ""
    · rw [if_pos hi] at h
      cases hv : importAction E.json E.importFileName s with
      | error e =>
        rw [hv] at h
        cases h
      | ok v =>
        rw [hv] at h
        exact tail v (importAction_logged _ _ _ _ hv) h
    · rw [if_neg hi] at h
      exact tail s (Logged.refl s) h
  · simp only [commands, List.mem_cons, List.mem_singleton, List.not_mem_nil, or_false]
      at hknown
    rcases hknown with h | h | h | h | h | h | h | h | h <;> contradiction

/-- C18: handling a command that returns only appends to the log, and the log
is chronological: the entries appended are, in the order of the events at the
terminal, the line each read returned, which is the next line of the input
trimmed, and the message of each print.  The one event that leaves no entry is
the message for a command that is not known, and then nothing is logged and
the deck stays as it is.  The events are what standard output received and
what was taken from standard input. -/
theorem log_append_only (E : Env) (input : String) (s s' : State)
    (h : makeActionForInput E input s = .ok s') :
    ∃ events : List Event,
      s'.terminal = s.terminal ++ events ∧
      s'.logs = s.logs ++ events.filterMap Event.entry ∧
      events.filter (fun e => decide (e.entry = none)) =
        (if input ∈ commands then [] else [.printf (input ++ " not implemented")]) ∧
      s'.stdout = s.stdout ++ events.filterMap Event.output ∧
      events.filterMap Event.input = reads s.stdin (events.filterMap Event.input).length ∧
      s'.stdin = s.stdin.drop (events.filterMap Event.input).length ∧
      (input ∉ commands → s'.logs = s.logs ∧ s'.cards = s.cards) := by
  by_cases hknown : input ∈ commands
  · obtain ⟨events, ht, hl, hn, ho, hr, hi⟩ := makeActionForInput_logged E input s s' hknown h
    refine ⟨events, ht, hl, ?_, ho, hr, hi, fun hnot => absurd hknown hnot⟩
    rw [if_pos hknown, List.filter_eq_nil_iff]
    intro e he
    simpa using hn e he
  · have hne : ∀ c ∈ commands, input ≠ c := fun c hc heq => hknown (heq ▸ hc)
    unfold makeActionForInput at h
    rw [if_neg (hne "add" (by decide)), if_neg (hne "remove" (by decide)),
      if_neg (hne "import" (by decide)), if_neg (hne "export" (by decide)),
      if_neg (hne "ask" (by decide)), if_neg (hne "log" (by decide)),
      if_neg (hne "hardest card" (by decide)), if_neg (hne "reset stats" (by decide)),
      if_neg (hne "exit" (by decide))] at h
    cases h
    refine ⟨[.printf (input ++ " not implemented")], rfl, by simp [Event.entry], ?_,
      by simp [Event.output], by simp [Event.input, reads], by simp [Event.input],
      fun _ => ⟨rfl, rfl⟩⟩
    rw [if_neg hknown]
    simp [Event.entry]

/-- C18, an instance: the command `remove` on the scenario deck, reading
`river`, appends the question, the line read and the report to the log, in the
order in which they happened at the terminal. -/
theorem log_append_only_witness :
    ∃ s' : State,
      makeActionForInput ⟨plainJson, fun _ => "", id, "", ""⟩ "remove"
        (State.mk scenarioDeck ["remove"] ["  river "] [] (fun _ => Node.missing)) = .ok s' ∧
      s'.terminal =
        [.println "Which card?", .read "river", .println "The card has been removed.\n"] ∧
      s'.logs = ["remove"] ++ ["Which card?", "river", "The card has been removed.\n"] ∧
      ∃ events : List Event,
        s'.terminal = [] ++ events ∧
        s'.logs = ["remove"] ++ events.filterMap Event.entry ∧
        events.filter (fun e => decide (e.entry = none)) =
          (if "remove" ∈ commands then [] else [.printf ("remove" ++ " not implemented")]) ∧
        s'.stdout = [] ++ events.filterMap Event.output ∧
        events.filterMap Event.input =
          reads ["  river "] (events.filterMap Event.input).length ∧
        s'.stdin = (["  river "] : List String).drop (events.filterMap Event.input).length ∧
        ("remove" ∉ commands → s'.logs = ["remove"] ∧ s'.cards = scenarioDeck) :=
  ⟨_, rfl, rfl, rfl,
    log_append_only ⟨plainJson, fun _ => "", id, "", ""⟩ "remove"
      (State.mk scenarioDeck ["remove"] ["  river "] [] (fun _ => Node.missing)) _ rfl⟩

/-! ## Writing a deck and reading it back -/

theorem digitsValue_concat (ds : List Char) (d : Char) :
    digitsValue (ds ++ [d]) = digitsValue ds * 10 + (d.toNat - 48) := by
  simp [digitsValue, List.foldl_append]

theorem digitChar_spec (k : Nat) (hk : k < 10) :
    (Nat.digitChar k).toNat - 48 = k ∧ (Nat.digitChar k).isDigit = true ∧
      (0 < k → Nat.digitChar k ≠ Char.ofNat 48) := by
  interval_cases k <;> decide

theorem toDigitsCore_acc (fuel n : Nat) (ds : List Char) :
    Nat.toDigitsCore 10 fuel n ds = Nat.toDigitsCore 10 fuel n [] ++ ds := by
  induction fuel generalizing n ds with
  | zero => simp [Nat.toDigitsCore]
  | succ fuel ih =>
    simp only [Nat.toDigitsCore]
    split
    · simp
    · rw [ih (n / 10) (Nat.digitChar (n % 10) :: ds), ih (n / 10) [Nat.digitChar (n % 10)]]
      simp

/-- The decimal digits `Nat.repr` writes: digits all of them, at least one,
no leading zero for a number above zero, and their value is the number. -/
theorem toDigitsCore_spec (fuel n : Nat) (hfuel : n < fuel) :
    digitsValue (Nat.toDigitsCore 10 fuel n []) = n ∧
      (∀ c ∈ Nat.toDigitsCore 10 fuel n [], c.isDigit = true) ∧
      Nat.toDigitsCore 10 fuel n [] ≠ [] ∧
      (0 < n → (Nat.toDigitsCore 10 fuel n []).head? ≠ some (Char.ofNat 48)) ∧
      (n = 0 → Nat.toDigitsCore 10 fuel n [] = [Char.ofNat 48]) := by
  induction fuel generalizing n with
  | zero => omega
  | succ fuel ih =>
    have hd := digitChar_spec (n % 10) (Nat.mod_lt _ (by omega))
    simp only [Nat.toDigitsCore]
    by_cases hsmall : n / 10 = 0
    · rw [if_pos hsmall]
      have hn : n % 10 = n := Nat.mod_eq_of_lt (by omega)
      refine ⟨?_, ?_, by simp, ?_, ?_⟩
      · have := hd.1
        rw [hn] at this
        simp [digitsValue, hn, this]
      · intro c hc
        rw [List.mem_singleton] at hc
        rw [hc]
        exact hd.2.1
      · intro hpos
        simp only [List.head?_cons, ne_eq, Option.some.injEq]
        exact hd.2.2 (by omega)
      · intro h0
        subst h0
        rfl
    · rw [if_neg hsmall, toDigitsCore_acc]
      obtain ⟨h1, h2, h3, h4, _⟩ := ih (n / 10) (by omega)
      refine ⟨?_, ?_, by simp [h3], ?_, ?_⟩
      · rw [digitsValue_concat, h1, hd.1]
        omega
      · intro c hc
        rcases List.mem_append.mp hc with hc | hc
        · exact h2 c hc
        · rw [List.mem_singleton] at hc
          rw [hc]
          exact hd.2.1
      · intro _
        have hpos : 0 < n / 10 := Nat.pos_of_ne_zero hsmall
        cases hcore : Nat.toDigitsCore 10 fuel (n / 10) [] with
        | nil => exact absurd hcore h3
        | cons c cs =>
          have := h4 hpos
          rw [hcore] at this
          simpa using this
      · intro h0
        subst h0
        simp at hsmall

theorem Plain.expect_append (lit : String) (rest : List Char) :
    Plain.expect lit (lit.toList ++ rest) = some rest := by
  unfold Plain.expect
  rw [if_pos (List.isPrefixOf_iff_prefix.mpr (List.prefix_append _ _))]
  congr 1
  exact List.drop_left' rfl

/-- A literal is not read off an input whose first character that differs
from it comes before its end. -/
theorem Plain.expect_mismatch (lit : String) (cs : List Char)
    (h : lit.toList.isPrefixOf cs = false) : Plain.expect lit cs = none := by
  unfold Plain.expect
  rw [if_neg (by rw [h]; decide)]

/-- An integer inside the range of `int`, as `%d` writes it, followed by a
closing brace, is read back as it was. -/
theorem Plain.intLiteral_repr (m : Int) (rest : List Char) (hlow : -(2 ^ 63) ≤ m)
    (hhigh : m < 2 ^ 63) :
    Plain.intLiteral ((toString m).toList ++ Char.ofNat 125 :: rest) =
      some (m, Char.ofNat 125 :: rest) := by
  have digits : ∀ n : Nat, ∀ tail : List Char,
      (Nat.toDigits 10 n ++ Char.ofNat 125 :: tail).takeWhile Char.isDigit = Nat.toDigits 10 n ∧
      (Nat.toDigits 10 n ++ Char.ofNat 125 :: tail).dropWhile Char.isDigit =
        Char.ofNat 125 :: tail := by
    intro n tail
    obtain ⟨_, hall, _, _, _⟩ := toDigitsCore_spec (n + 1) n (by omega)
    constructor
    · rw [show Nat.toDigits 10 n = Nat.toDigitsCore 10 (n + 1) n [] from rfl,
        List.takeWhile_append_of_pos hall]
      simp [List.takeWhile]
    · rw [show Nat.toDigits 10 n = Nat.toDigitsCore 10 (n + 1) n [] from rfl,
        List.dropWhile_append_of_pos hall]
      simp [List.dropWhile]
  have shape : ∀ n : Nat,
      ((Nat.toDigits 10 n).isEmpty ||
        (decide ((Nat.toDigits 10 n).length > 1) &&
          (Nat.toDigits 10 n).head? == some (Char.ofNat 48))) = false ∧
      digitsValue (Nat.toDigits 10 n) = n ∧
      ((Nat.toDigits 10 n).head? == some (Char.ofNat 45)) = false := by
    intro n
    obtain ⟨hval, hall, hne, hlead, hzero⟩ := toDigitsCore_spec (n + 1) n (by omega)
    rw [show Nat.toDigits 10 n = Nat.toDigitsCore 10 (n + 1) n [] from rfl]
    refine ⟨?_, hval, ?_⟩
    · rcases Nat.eq_zero_or_pos n with h0 | hpos
      · rw [hzero h0]
        rfl
      · have := hlead hpos
        cases hcore : Nat.toDigitsCore 10 (n + 1) n [] with
        | nil => exact absurd hcore hne
        | cons c cs =>
          rw [hcore] at this
          simp only [List.head?_cons, ne_eq, Option.some.injEq] at this
          simp [this]
    · cases hcore : Nat.toDigitsCore 10 (n + 1) n [] with
      | nil => rfl
      | cons c cs =>
        have hc := hall c (by rw [hcore]; exact List.mem_cons_self _ _)
        simp only [List.head?_cons, beq_eq_false_iff_ne, ne_eq, Option.some.injEq]
        intro h
        rw [h] at hc
        exact absurd hc (by decide)
  cases m with
  | ofNat n =>
    have htext : (toString (Int.ofNat n)).toList = Nat.toDigits 10 n := rfl
    obtain ⟨e1, e2, e3⟩ := shape n
    obtain ⟨t1, t2⟩ := digits n rest
    have hhead : ((Nat.toDigits 10 n ++ Char.ofNat 125 :: rest).head? ==
        some (Char.ofNat 45)) = false := by
      cases hd : Nat.toDigits 10 n with
      | nil => rfl
      | cons c cs =>
        rw [hd] at e3
        exact e3
    rw [htext]
    unfold Plain.intLiteral
    simp only [hhead, Bool.false_eq_true, if_false, t1, t2, e1, e2]
    rw [if_pos ⟨hlow, hhigh⟩]
  | negSucc k =>
    have htext : (toString (Int.negSucc k)).toList = Char.ofNat 45 :: Nat.toDigits 10 (k + 1) :=
      rfl
    obtain ⟨e1, e2, _⟩ := shape (k + 1)
    obtain ⟨t1, t2⟩ := digits (k + 1) rest
    rw [htext]
    unfold Plain.intLiteral
    simp only [List.cons_append, List.head?_cons, beq_self_eq_true, if_true, List.drop_succ_cons,
      List.drop_zero, t1, t2, e1, e2, Bool.false_eq_true, if_false]
    have hval : -(Int.ofNat (k + 1)) = Int.negSucc k := rfl
    rw [hval, if_pos ⟨hlow, hhigh⟩]

/-- Reading what `json.Marshal` writes for one character gives that character
back and goes on with the rest. -/
theorem Text.stringBody_escapeChar (c : Char) (fuel : Nat) (tail : List Char) :
    Text.stringBody (fuel + 1) (Text.escapeChar c ++ tail) =
      (Text.stringBody fuel tail).map fun v => (c :: v.1, v.2) := by
  have hc : c = Char.ofNat c.toNat := (Char.ofNat_toNat c).symm
  by_cases hlow : c.toNat < 32
  · generalize c.toNat = n at hc hlow
    subst hc
    interval_cases n <;> rfl
  by_cases h34 : c.toNat = 34
  · rw [h34] at hc
    subst hc
    rfl
  by_cases h92 : c.toNat = 92
  · rw [h92] at hc
    subst hc
    rfl
  by_cases h60 : c.toNat = 60
  · rw [h60] at hc
    subst hc
    rfl
  by_cases h62 : c.toNat = 62
  · rw [h62] at hc
    subst hc
    rfl
  by_cases h38 : c.toNat = 38
  · rw [h38] at hc
    subst hc
    rfl
  by_cases h2028 : c.toNat = 0x2028
  · rw [h2028] at hc
    subst hc
    rfl
  by_cases h2029 : c.toNat = 0x2029
  · rw [h2029] at hc
    subst hc
    rfl
  have hplain : Text.escapeChar c = [c] := by
    unfold Text.escapeChar
    simp only [h34, h92, h60, h62, h38, h2028, h2029, hlow, if_false, or_self]
    rw [if_neg (by omega), if_neg (by omega), if_neg (by omega), if_neg (by omega),
      if_neg (by omega)]
  rw [hplain]
  simp only [List.singleton_append, Text.stringBody, h34, h92, hlow, if_false]
  rfl

theorem Text.escapeChar_length (c : Char) : 1 ≤ (Text.escapeChar c).length := by
  unfold Text.escapeChar
  dsimp only
  repeat' split
  all_goals simp

theorem Text.escape_length (cs : List Char) : cs.length ≤ (Text.escape cs).length := by
  induction cs with
  | nil => simp [Text.escape]
  | cons c cs ih =>
    have := Text.escapeChar_length c
    simp only [Text.escape, List.flatMap_cons, List.length_append, List.length_cons] at ih ⊢
    omega

/-- Reading what `json.Marshal` writes for a string, up to the closing quote,
gives the string back. -/
theorem Text.stringBody_escape (cs : List Char) (fuel : Nat) (rest : List Char)
    (hfuel : cs.length + 1 ≤ fuel) :
    Text.stringBody fuel (Text.escape cs ++ Char.ofNat 34 :: rest) = some (cs, rest) := by
  induction cs generalizing fuel with
  | nil =>
    obtain ⟨f, rfl⟩ : ∃ f, fuel = f + 1 := ⟨fuel - 1, by simp at hfuel; omega⟩
    rfl
  | cons c cs ih =>
    obtain ⟨f, rfl⟩ : ∃ f, fuel = f + 1 := ⟨fuel - 1, by simp at hfuel; omega⟩
    have hrest := ih f (by simp at hfuel ⊢; omega)
    rw [show Text.escape (c :: cs) = Text.escapeChar c ++ Text.escape cs from rfl,
      List.append_assoc, Text.stringBody_escapeChar, hrest]
    rfl

theorem Text.member_term (card : Card) (t : String) (rest : List Char) :
    Text.member card ("\"term\":\"".toList ++ (Text.escape t.toList ++ Char.ofNat 34 :: rest)) =
      some ({ card with Term := t }, rest) := by
  unfold Text.member
  rw [Plain.expect_append]
  simp only [Text.stringBody_escape _ _ _ (show t.toList.length + 1 ≤
      (Text.escape t.toList ++ Char.ofNat 34 :: rest).length by
    have := Text.escape_length t.toList
    simp only [List.length_append, List.length_cons]
    omega), Option.map]
  rfl

theorem Text.member_definition (card : Card) (d : String) (rest : List Char) :
    Text.member card ("\"definition\":\"".toList ++ (Text.escape d.toList ++ Char.ofNat 34 :: rest)) =
      some ({ card with Definition := d }, rest) := by
  have h1 : Plain.expect "\"term\":\""
      ("\"definition\":\"".toList ++ (Text.escape d.toList ++ Char.ofNat 34 :: rest)) = none :=
    Plain.expect_mismatch _ _ rfl
  unfold Text.member
  rw [h1, Plain.expect_append]
  simp only [Text.stringBody_escape _ _ _ (show d.toList.length + 1 ≤
      (Text.escape d.toList ++ Char.ofNat 34 :: rest).length by
    have := Text.escape_length d.toList
    simp only [List.length_append, List.length_cons]
    omega), Option.map]
  rfl

theorem Text.member_mistakes (card : Card) (m : Int) (rest : List Char)
    (hlow : -(2 ^ 63) ≤ m) (hhigh : m < 2 ^ 63) :
    Text.member card ("\"mistakes\":".toList ++
        ((toString m).toList ++ Char.ofNat 125 :: rest)) =
      some ({ card with Mistakes := m }, Char.ofNat 125 :: rest) := by
  have h1 : Plain.expect "\"term\":\""
      ("\"mistakes\":".toList ++ ((toString m).toList ++ Char.ofNat 125 :: rest)) = none :=
    Plain.expect_mismatch _ _ rfl
  have h2 : Plain.expect "\"definition\":\""
      ("\"mistakes\":".toList ++ ((toString m).toList ++ Char.ofNat 125 :: rest)) = none :=
    Plain.expect_mismatch _ _ rfl
  unfold Text.member
  rw [h1, h2, Plain.expect_append]
  simp only [Plain.intLiteral_repr m rest hlow hhigh, Option.map]

/-- The member for the term, with more members after it. -/
theorem Text.members_term_more (fuel : Nat) (card : Card) (t : String) (more : List Char) :
    Text.members (fuel + 1) card
        ("\"term\":\"".toList ++ (Text.escape t.toList ++ Char.ofNat 34 :: Char.ofNat 44 :: more)) =
      Text.members fuel { card with Term := t } more := by
  rw [Text.members, Text.member_term card t _]
  simp only
  rw [if_pos (by decide)]

/-- The member for the term, the last of its object. -/
theorem Text.members_term_end (fuel : Nat) (card : Card) (t : String) (rest : List Char) :
    Text.members (fuel + 1) card
        ("\"term\":\"".toList ++ (Text.escape t.toList ++ Char.ofNat 34 :: Char.ofNat 125 :: rest)) =
      some ({ card with Term := t }, rest) := by
  rw [Text.members, Text.member_term card t _]
  simp only
  rw [if_neg (by decide), if_pos (by decide)]

/-- The member for the definition, with the member for the counter after it. -/
theorem Text.members_definition_more (fuel : Nat) (card : Card) (d : String)
    (more : List Char) :
    Text.members (fuel + 1) card
        ("\"definition\":\"".toList ++ (Text.escape d.toList ++ Char.ofNat 34 :: Char.ofNat 44 :: more)) =
      Text.members fuel { card with Definition := d } more := by
  rw [Text.members, Text.member_definition card d _]
  simp only
  rw [if_pos (by decide)]

/-- The member for the definition, the last of its object. -/
theorem Text.members_definition_end (fuel : Nat) (card : Card) (d : String)
    (rest : List Char) :
    Text.members (fuel + 1) card
        ("\"definition\":\"".toList ++ (Text.escape d.toList ++ Char.ofNat 34 :: Char.ofNat 125 :: rest)) =
      some ({ card with Definition := d }, rest) := by
  rw [Text.members, Text.member_definition card d _]
  simp only
  rw [if_neg (by decide), if_pos (by decide)]

/-- The member for the counter, always the last of its object. -/
theorem Text.members_mistakes_end (fuel : Nat) (card : Card) (m : Int) (rest : List Char)
    (hlow : -(2 ^ 63) ≤ m) (hhigh : m < 2 ^ 63) :
    Text.members (fuel + 1) card
        ("\"mistakes\":".toList ++ ((toString m).toList ++ Char.ofNat 125 :: rest)) =
      some ({ card with Mistakes := m }, rest) := by
  rw [Text.members, Text.member_mistakes card m _ hlow hhigh]
  simp only
  rw [if_neg (by decide), if_pos (by decide)]

/-- An object whose first member starts with a quote is read member by member,
with fuel for three members when the text has room for them. -/
theorem Text.object_members (X : List Char) (hlen : 2 ≤ X.length) :
    ∃ fuel, Text.object (Char.ofNat 123 :: Char.ofNat 34 :: X) =
      Text.members (fuel + 3) { Term := "", Definition := "", Mistakes := 0 }
        (Char.ofNat 34 :: X) := by
  have hopen : Plain.expect "\x7b" (Char.ofNat 123 :: Char.ofNat 34 :: X) =
      some (Char.ofNat 34 :: X) := Plain.expect_append "\x7b" _
  have hclose : Plain.expect "\x7d" (Char.ofNat 34 :: X) = none :=
    Plain.expect_mismatch _ _ rfl
  refine ⟨X.length - 2, ?_⟩
  unfold Text.object
  rw [hopen]
  simp only [hclose, List.length_cons]
  congr 1
  omega

theorem Text.key_length (key : String) (rest : List Char) (h : 2 ≤ key.toList.length) :
    2 ≤ (key.toList ++ rest).length := by
  rw [List.length_append]
  omega

/-- The object written for a card is read back as the card, whichever of its
three members are left out as empty. -/
theorem Text.object_encodeCard (card : Card) (rest : List Char)
    (hlow : -(2 ^ 63) ≤ card.Mistakes) (hhigh : card.Mistakes < 2 ^ 63) :
    Text.object ((Text.encodeCard card).toList ++ rest) = some (card, rest) := by
  obtain ⟨term, definition, mistakes⟩ := card
  simp only at hlow hhigh
  have q1 : ("\x7b" : String).data = [Char.ofNat 123] := rfl
  have q2 : ("\x7d" : String).data = [Char.ofNat 125] := rfl
  have q3 : ("\"" : String).data = [Char.ofNat 34] := rfl
  have q4 : ("," : String).data = [Char.ofNat 44] := rfl
  by_cases e1 : term = "" <;> by_cases e2 : definition = "" <;> by_cases e3 : mistakes = 0
  · subst e1 e2 e3
    have hshape : (Text.encodeCard ⟨"", "", 0⟩).toList ++ rest =
        "\x7b".toList ++ ("\x7d".toList ++ rest) := rfl
    rw [hshape]
    unfold Text.object
    simp only [Plain.expect_append]
  · subst e1 e2
    have hshape : (Text.encodeCard ⟨"", "", mistakes⟩).toList ++ rest =
        Char.ofNat 123 :: ("\"mistakes\":".toList ++
          ((toString mistakes).toList ++ Char.ofNat 125 :: rest)) := by
      simp [Text.encodeCard, Text.cardMembers, Text.quote, e3, String.intercalate, String.intercalate.go,
        String.toList, String.data_append, q1, q2]
    obtain ⟨fuel, hf⟩ := Text.object_members _
      (Text.key_length "mistakes\":" ((toString mistakes).toList ++ Char.ofNat 125 :: rest)
        (by decide))
    rw [hshape]
    exact hf.trans (Text.members_mistakes_end _ _ mistakes rest hlow hhigh)
  · subst e1 e3
    have hshape : (Text.encodeCard ⟨"", definition, 0⟩).toList ++ rest =
        Char.ofNat 123 :: ("\"definition\":\"".toList ++
          (Text.escape definition.toList ++ Char.ofNat 34 :: Char.ofNat 125 :: rest)) := by
      simp [Text.encodeCard, Text.cardMembers, Text.quote, e2, String.intercalate, String.intercalate.go,
        String.toList, String.data_append, q1, q2, q3]
    obtain ⟨fuel, hf⟩ := Text.object_members _
      (Text.key_length "definition\":\""
        (Text.escape definition.toList ++ Char.ofNat 34 :: Char.ofNat 125 :: rest) (by decide))
    rw [hshape]
    exact hf.trans (Text.members_definition_end _ _ definition rest)
  · subst e1
    have hshape : (Text.encodeCard ⟨"", definition, mistakes⟩).toList ++ rest =
        Char.ofNat 123 :: ("\"definition\":\"".toList ++
          (Text.escape definition.toList ++ Char.ofNat 34 :: Char.ofNat 44 ::
            ("\"mistakes\":".toList ++
              ((toString mistakes).toList ++ Char.ofNat 125 :: rest)))) := by
      simp [Text.encodeCard, Text.cardMembers, Text.quote, e2, e3, String.intercalate,
        String.intercalate.go, String.toList, String.data_append, q1, q2, q3, q4]
    obtain ⟨fuel, hf⟩ := Text.object_members _
      (Text.key_length "definition\":\""
        (Text.escape definition.toList ++ Char.ofNat 34 :: Char.ofNat 44 ::
          ("\"mistakes\":".toList ++
            ((toString mistakes).toList ++ Char.ofNat 125 :: rest))) (by decide))
    rw [hshape]
    exact hf.trans ((Text.members_definition_more _ _ definition _).trans
      (Text.members_mistakes_end _ _ mistakes rest hlow hhigh))
  · subst e2 e3
    have hshape : (Text.encodeCard ⟨term, "", 0⟩).toList ++ rest =
        Char.ofNat 123 :: ("\"term\":\"".toList ++
          (Text.escape term.toList ++ Char.ofNat 34 :: Char.ofNat 125 :: rest)) := by
      simp [Text.encodeCard, Text.cardMembers, Text.quote, e1, String.intercalate, String.intercalate.go,
        String.toList, String.data_append, q1, q2, q3]
    obtain ⟨fuel, hf⟩ := Text.object_members _
      (Text.key_length "term\":\""
        (Text.escape term.toList ++ Char.ofNat 34 :: Char.ofNat 125 :: rest) (by decide))
    rw [hshape]
    exact hf.trans (Text.members_term_end _ _ term rest)
  · subst e2
    have hshape : (Text.encodeCard ⟨term, "", mistakes⟩).toList ++ rest =
        Char.ofNat 123 :: ("\"term\":\"".toList ++
          (Text.escape term.toList ++ Char.ofNat 34 :: Char.ofNat 44 ::
            ("\"mistakes\":".toList ++
              ((toString mistakes).toList ++ Char.ofNat 125 :: rest)))) := by
      simp [Text.encodeCard, Text.cardMembers, Text.quote, e1, e3, String.intercalate,
        String.intercalate.go, String.toList, String.data_append, q1, q2, q3, q4]
    obtain ⟨fuel, hf⟩ := Text.object_members _
      (Text.key_length "term\":\""
        (Text.escape term.toList ++ Char.ofNat 34 :: Char.ofNat 44 ::
          ("\"mistakes\":".toList ++
            ((toString mistakes).toList ++ Char.ofNat 125 :: rest))) (by decide))
    rw [hshape]
    exact hf.trans ((Text.members_term_more _ _ term _).trans
      (Text.members_mistakes_end _ _ mistakes rest hlow hhigh))
  · subst e3
    have hshape : (Text.encodeCard ⟨term, definition, 0⟩).toList ++ rest =
        Char.ofNat 123 :: ("\"term\":\"".toList ++
          (Text.escape term.toList ++ Char.ofNat 34 :: Char.ofNat 44 ::
            ("\"definition\":\"".toList ++
              (Text.escape definition.toList ++ Char.ofNat 34 :: Char.ofNat 125 :: rest)))) := by
      simp [Text.encodeCard, Text.cardMembers, Text.quote, e1, e2, String.intercalate,
        String.intercalate.go, String.toList, String.data_append, q1, q2, q3, q4]
    obtain ⟨fuel, hf⟩ := Text.object_members _
      (Text.key_length "term\":\""
        (Text.escape term.toList ++ Char.ofNat 34 :: Char.ofNat 44 ::
          ("\"definition\":\"".toList ++
            (Text.escape definition.toList ++ Char.ofNat 34 :: Char.ofNat 125 :: rest))) (by decide))
    rw [hshape]
    exact hf.trans ((Text.members_term_more _ _ term _).trans
      (Text.members_definition_end _ _ definition rest))
  · have hshape : (Text.encodeCard ⟨term, definition, mistakes⟩).toList ++ rest =
        Char.ofNat 123 :: ("\"term\":\"".toList ++
          (Text.escape term.toList ++ Char.ofNat 34 :: Char.ofNat 44 ::
            ("\"definition\":\"".toList ++
              (Text.escape definition.toList ++ Char.ofNat 34 :: Char.ofNat 44 ::
                ("\"mistakes\":".toList ++
                  ((toString mistakes).toList ++ Char.ofNat 125 :: rest)))))) := by
      simp [Text.encodeCard, Text.cardMembers, Text.quote, e1, e2, e3, String.intercalate,
        String.intercalate.go, String.toList, String.data_append, q1, q2, q3, q4]
    obtain ⟨fuel, hf⟩ := Text.object_members _
      (Text.key_length "term\":\""
        (Text.escape term.toList ++ Char.ofNat 34 :: Char.ofNat 44 ::
          ("\"definition\":\"".toList ++
            (Text.escape definition.toList ++ Char.ofNat 34 :: Char.ofNat 44 ::
              ("\"mistakes\":".toList ++
                ((toString mistakes).toList ++ Char.ofNat 125 :: rest))))) (by decide))
    rw [hshape]
    exact hf.trans ((Text.members_term_more _ _ term _).trans
      ((Text.members_definition_more _ _ definition _).trans
        (Text.members_mistakes_end _ _ mistakes rest hlow hhigh)))

theorem intercalate_go_toList (acc sep : String) (l : List String) :
    (String.intercalate.go acc sep l).toList =
      acc.toList ++ l.flatMap (fun a => sep.toList ++ a.toList) := by
  induction l generalizing acc with
  | nil => simp [String.intercalate.go]
  | cons a rest ih =>
    rw [String.intercalate.go, ih]
    simp [String.toList, String.data_append, List.flatMap_cons]

/-- The elements written for a deck that is not empty, closed by a bracket,
are read back as the deck. -/
theorem Text.elements_encode (cs : List Card) (c : Card) (fuel : Nat) (rest : List Char)
    (hfuel : cs.length + 1 ≤ fuel)
    (hrange : ∀ x ∈ c :: cs, -(2 ^ 63) ≤ x.Mistakes ∧ x.Mistakes < 2 ^ 63) :
    Text.elements fuel ((Text.encodeCard c).toList ++
        ((cs.map Text.encodeCard).flatMap (fun a => ",".toList ++ a.toList) ++
          Char.ofNat 93 :: rest)) = some (c :: cs, rest) := by
  induction cs generalizing c fuel with
  | nil =>
    obtain ⟨f, rfl⟩ : ∃ f, fuel = f + 1 := ⟨fuel - 1, by simp at hfuel; omega⟩
    obtain ⟨h3, h4⟩ := hrange c (List.mem_cons_self _ _)
    simp only [List.map_nil, List.flatMap_nil, List.nil_append, Text.elements]
    rw [Text.object_encodeCard c _ h3 h4]
    simp only
    rw [if_neg (by decide), if_pos (by decide)]
  | cons d ds ih =>
    obtain ⟨f, rfl⟩ : ∃ f, fuel = f + 1 := ⟨fuel - 1, by simp at hfuel; omega⟩
    obtain ⟨h3, h4⟩ := hrange c (List.mem_cons_self _ _)
    have hrest := ih d f (by simp at hfuel ⊢; omega)
      (fun x hx => hrange x (List.mem_cons_of_mem _ hx))
    have hshape : (Text.encodeCard c).toList ++
        (((d :: ds).map Text.encodeCard).flatMap (fun a => ",".toList ++ a.toList) ++
          Char.ofNat 93 :: rest) =
        (Text.encodeCard c).toList ++ (Char.ofNat 44 :: ((Text.encodeCard d).toList ++
          ((ds.map Text.encodeCard).flatMap (fun a => ",".toList ++ a.toList) ++
            Char.ofNat 93 :: rest))) := by
      simp only [List.map_cons, List.flatMap_cons, List.append_assoc]
      rfl
    rw [hshape, Text.elements, Text.object_encodeCard c _ h3 h4]
    simp only
    rw [if_pos (by decide), hrest]
    rfl

theorem flatMap_length_le (l : List String) :
    l.length ≤ (l.flatMap (fun a => ",".toList ++ a.toList)).length := by
  induction l with
  | nil => simp
  | cons a rest ih =>
    simp only [List.flatMap_cons, List.length_append, List.length_cons]
    have : (",".toList).length = 1 := rfl
    omega

/-- The text codec reads back what it wrote: for every deck whose counters fit
the type `int`, the document written, with the line end `fmt.Fprintln` adds,
decodes to the same deck, members left out as empty among them. -/
theorem Text.decode_encode (cards : List Card)
    (hrange : ∀ x ∈ cards, -(2 ^ 63) ≤ x.Mistakes ∧ x.Mistakes < 2 ^ 63) :
    Text.decode (Text.encode cards ++ "\n") = some cards := by
  cases cards with
  | nil => rfl
  | cons c cs =>
    have hdoc : (Text.encode (c :: cs) ++ "\n").toList =
        "\x7b\"cards\":[".toList ++ ((Text.encodeCard c).toList ++
          ((cs.map Text.encodeCard).flatMap (fun a => ",".toList ++ a.toList) ++
            Char.ofNat 93 :: "\x7d\n".toList)) := by
      simp only [Text.encode, String.toList, String.data_append, List.map_cons,
        String.intercalate, List.append_assoc]
      have := intercalate_go_toList (Text.encodeCard c) "," (cs.map Text.encodeCard)
      simp only [String.toList] at this
      rw [this]
      simp only [List.append_assoc]
      rfl
    have hopen : ∃ body, (Text.encodeCard c).toList = Char.ofNat 123 :: body :=
      ⟨_, by simp only [Text.encodeCard, String.toList, String.data_append,
        List.append_assoc]; rfl⟩
    obtain ⟨body, hbody⟩ := hopen
    unfold Text.decode
    rw [hdoc, Plain.expect_append]
    simp only
    have hno : Plain.expect "]" ((Text.encodeCard c).toList ++
        ((cs.map Text.encodeCard).flatMap (fun a => ",".toList ++ a.toList) ++
          Char.ofNat 93 :: "\x7d\n".toList)) = none := by
      rw [hbody]
      exact Plain.expect_mismatch _ _ rfl
    rw [hno]
    simp only
    rw [Text.elements_encode cs c _ _ (by
      rw [hbody]
      have := flatMap_length_le (cs.map Text.encodeCard)
      simp only [List.length_cons, List.length_append, List.length_map] at this ⊢
      omega) hrange]
    rfl

/-- Export to a path where no file is, then import of that path into a fresh
session: when the codec reads back the document it writes for the deck, the
fresh deck ends as the exported deck. -/
theorem export_then_import (J : Json) (path doc : String) (s : State) (stdin : List String)
    (hmissing : s.files path = .missing) (hwrite : J.marshal s.cards = some doc)
    (hread : J.unmarshal (doc ++ "\n") = some s.cards) :
    ∃ s1 s2, exportAction J path s = .ok s1 ∧ s1.files path = .regular (doc ++ "\n") ∧
      importAction J path (initial stdin s1.files) = .ok s2 ∧ s2.cards = s.cards := by
  have hopen : readFromFile path s =
      .ok { s with files := fun p => if p = path then .regular "" else s.files p } := by
    unfold readFromFile
    rw [hmissing]
  have hsave : saveInFile J path s =
      .ok { s with files := fun p => if p = path then .regular (doc ++ "\n") else
        (if p = path then .regular "" else s.files p) } := by
    have hempty : ("" : String) ++ doc = doc := by
      cases doc
      rfl
    unfold saveInFile
    rw [hopen]
    simp only [bind, Except.bind, pure, Except.pure, fileContent, if_true, String.length,
      List.length_nil, gt_iff_lt, lt_self_iff_false, if_false, hwrite, hempty]
  have hexport : exportAction J path s =
      .ok (printToTerminal (savedMsg s.cards.length)
        { s with files := fun p => if p = path then .regular (doc ++ "\n") else
          (if p = path then .regular "" else s.files p) }) := by
    unfold exportAction
    rw [hsave]
    rfl
  have himport : importAction J path (initial stdin
      (fun p => if p = path then .regular (doc ++ "\n") else
        (if p = path then .regular "" else s.files p))) =
      .ok { printToTerminal (loadedMsg s.cards.length) (initial stdin
        (fun p => if p = path then .regular (doc ++ "\n") else
          (if p = path then .regular "" else s.files p))) with cards := [] ++ s.cards } := by
    unfold importAction readDeck
    simp only [initial, if_true, hread, bind, Except.bind, pure, Except.pure,
      printToTerminal_cards]
  exact ⟨_, _, hexport, by simp, himport, by simp⟩

/-- The encoding of a character is read back as the character, with the
number of its bytes. -/
theorem Raw.decodeRune_utf8 (c : Char) (rest : List Nat) :
    Raw.decodeRune (Raw.utf8 c ++ rest) = some (c, (Raw.utf8 c).length) := by
  have hv : c.toNat < 0xD800 ∨ (0xDFFF < c.toNat ∧ c.toNat < 0x110000) := c.valid
  have hc : Char.ofNat c.toNat = c := Char.ofNat_toNat c
  unfold Raw.utf8
  dsimp only
  generalize c.toNat = n at hv hc ⊢
  by_cases h1 : n < 0x80
  · rw [if_pos h1]
    simp only [List.singleton_append, Raw.decodeRune, if_pos h1, hc, List.length_singleton]
  rw [if_neg h1]
  by_cases h2 : n < 0x800
  · rw [if_pos h2]
    have e : (0xC0 + n / 64 - 0xC0) * 64 + (0x80 + n % 64 - 0x80) = n := by omega
    simp only [List.cons_append, List.nil_append, Raw.decodeRune, Raw.continuation]
    rw [if_neg (by omega), if_pos (by omega)]
    simp only [show (0x80 ≤ 0x80 + n % 64 ∧ 0x80 + n % 64 ≤ 0xBF) from by omega, decide_True,
      if_true, e, hc]
    rfl
  rw [if_neg h2]
  by_cases h3 : n < 0x10000
  · rw [if_pos h3]
    have e : ((0xE0 + n / 4096 - 0xE0) * 64 + (0x80 + n / 64 % 64 - 0x80)) * 64 +
        (0x80 + n % 64 - 0x80) = n := by omega
    simp only [List.cons_append, List.nil_append, Raw.decodeRune, Raw.continuation]
    rw [if_neg (by omega), if_neg (by omega), if_pos (by omega)]
    simp only [show (0x80 ≤ 0x80 + n % 64 ∧ 0x80 + n % 64 ≤ 0xBF) from by omega, decide_True]
    rw [if_pos (by
      refine ⟨?_, ?_, rfl⟩
      · split <;> omega
      · split <;> omega)]
    simp only [e, hc]
    rfl
  rw [if_neg h3]
  have e : (((0xF0 + n / 262144 - 0xF0) * 64 + (0x80 + n / 4096 % 64 - 0x80)) * 64 +
      (0x80 + n / 64 % 64 - 0x80)) * 64 + (0x80 + n % 64 - 0x80) = n := by omega
  simp only [List.cons_append, List.nil_append, Raw.decodeRune, Raw.continuation]
  rw [if_neg (by omega), if_neg (by omega), if_neg (by omega), if_pos (by omega)]
  simp only [show (0x80 ≤ 0x80 + n % 64 ∧ 0x80 + n % 64 ≤ 0xBF) from by omega,
    show (0x80 ≤ 0x80 + n / 64 % 64 ∧ 0x80 + n / 64 % 64 ≤ 0xBF) from by omega, decide_True]
  rw [if_pos (by
    refine ⟨?_, ?_, rfl, rfl⟩
    · split <;> omega
    · split <;> omega)]
  simp only [e, hc]
  rfl
theorem Raw.utf8_shape (c : Char) : ∃ b tl, Raw.utf8 c = b :: tl := by
  unfold Raw.utf8
  dsimp only
  split
  · exact ⟨_, _, rfl⟩
  split
  · exact ⟨_, _, rfl⟩
  split
  · exact ⟨_, _, rfl⟩
  · exact ⟨_, _, rfl⟩

/-- For the bytes of a string of the model, `Raw.escape` writes what
`Text.escape` writes for the string. -/
theorem Raw.escape_bytes (cs : List Char) (fuel : Nat)
    (hfuel : (cs.flatMap Raw.utf8).length ≤ fuel) :
    Raw.escape fuel (cs.flatMap Raw.utf8) = Text.escape cs := by
  induction cs generalizing fuel with
  | nil => cases fuel <;> rfl
  | cons c cs ih =>
    obtain ⟨b, tl, hshape⟩ := Raw.utf8_shape c
    have hdec := Raw.decodeRune_utf8 c (cs.flatMap Raw.utf8)
    rw [List.flatMap_cons, hshape, List.length_append, List.length_cons] at hfuel
    obtain ⟨f, rfl⟩ : ∃ f, fuel = f + 1 := ⟨fuel - 1, by omega⟩
    rw [hshape] at hdec
    rw [List.flatMap_cons, hshape, List.cons_append, Raw.escape, ← List.cons_append, hdec]
    simp only [List.length_cons, Nat.add_sub_cancel, List.drop_left]
    rw [ih f (by omega)]
    rfl

theorem Raw.bytes_eq_nil (s : String) : Raw.bytes s = [] ↔ s = "" := by
  obtain ⟨cs⟩ := s
  cases cs with
  | nil => exact ⟨fun _ => rfl, fun _ => rfl⟩
  | cons c cs =>
    obtain ⟨b, tl, hshape⟩ := Raw.utf8_shape c
    constructor
    · intro h
      simp [Raw.bytes, List.flatMap_cons, hshape] at h
    · intro h
      exact absurd (congrArg String.data h) (by simp)

theorem Raw.quote_bytes (s : String) : Raw.quote (Raw.bytes s) = Text.quote s := by
  unfold Raw.quote Text.quote Raw.bytes
  rw [Raw.escape_bytes _ _ (le_refl _)]

/-- On the cards of the model the byte-level encoder agrees with `Text.encode`:
`Raw.encode` extends it to the Go strings that are not valid UTF-8. -/
theorem Raw.encode_ofCard (cards : List FlashCards.Card) :
    Raw.encode (cards.map Raw.ofCard) = Text.encode cards := by
  have hcard : ∀ card : FlashCards.Card, Raw.encodeCard (Raw.ofCard card) = Text.encodeCard card := by
    intro card
    unfold Raw.encodeCard Text.encodeCard Raw.cardMembers Text.cardMembers Raw.ofCard
    simp only [Raw.bytes_eq_nil, Raw.quote_bytes]
  unfold Raw.encode Text.encode
  rw [List.map_map]
  congr 3
  exact List.map_congr_left fun card _ => hcard card
/-- C14 (amended): for every deck whose terms and definitions are valid UTF-8,
exporting it to a path at which no file existed and then importing that path
into a fresh, empty deck gives back the same cards in the same order, hence the
same multiset, cards with counter 0, whose member is left out on write, among
them.  The strings of the model are sequences of Unicode characters, which are
the Go strings that are valid UTF-8; the counters are those of the type `int`.
The codec is `textJson`, which writes every string with the escape sequences of
`json.Marshal`; the file written is the document of `Text.encode` and a line
end. -/
theorem export_import_round_trip (path : String) (s : State) (stdin : List String)
    (hmissing : s.files path = .missing)
    (hrange : ∀ x ∈ s.cards, -(2 ^ 63) ≤ x.Mistakes ∧ x.Mistakes < 2 ^ 63) :
    ∃ s1 s2, exportAction textJson path s = .ok s1 ∧
      s1.files path = .regular (Text.encode s.cards ++ "\n") ∧
      importAction textJson path (initial stdin s1.files) = .ok s2 ∧
      s2.cards = s.cards ∧ s2.cards.Perm s.cards := by
  obtain ⟨s1, s2, h1, hfile, h2, h3⟩ := export_then_import textJson path (Text.encode s.cards) s
    stdin hmissing rfl (Text.decode_encode s.cards hrange)
  exact ⟨s1, s2, h1, hfile, h2, h3, h3 ▸ List.Perm.refl _⟩

/-- C14, an instance: a deck with a term that holds quotes and angle brackets,
a definition that ends in a line feed, a card with no mistakes, a card with 2
and a card with nothing in it, exported to `deck.json` and imported into a
fresh deck.  The file shows the escape sequences and the members left out. -/
theorem export_import_round_trip_witness :
    ∃ s1 s2,
      exportAction textJson "deck.json"
        (session [⟨"the \"capital\" <of France>", "Paris\n", 0⟩, ⟨"river", "Nile", 2⟩,
          ⟨"", "", 0⟩] []) = .ok s1 ∧
      s1.files "deck.json" = .regular
        "\x7b\"cards\":[\x7b\"term\":\"the \\\"capital\\\" \\u003cof France\\u003e\",\"definition\":\"Paris\\n\"\x7d,\x7b\"term\":\"river\",\"definition\":\"Nile\",\"mistakes\":2\x7d,\x7b\x7d]\x7d\n" ∧
      importAction textJson "deck.json" (initial [] s1.files) = .ok s2 ∧
      s2.cards = [⟨"the \"capital\" <of France>", "Paris\n", 0⟩, ⟨"river", "Nile", 2⟩,
        ⟨"", "", 0⟩] := by
  obtain ⟨s1, s2, h1, hfile, h2, h3, _⟩ := export_import_round_trip "deck.json"
    (session [⟨"the \"capital\" <of France>", "Paris\n", 0⟩, ⟨"river", "Nile", 2⟩,
      ⟨"", "", 0⟩] []) [] rfl (by decide)
  exact ⟨s1, s2, h1, hfile.trans (by decide), h2, h3⟩

/-- C14, a deck that does not come back: the card whose term is the single byte
ff, which is not valid UTF-8, and whose definition is `x`.  `json.Marshal`
writes the term as the escape sequence of U+FFFD, so the file `saveInFile`
writes at a path where no file was is the document below and a line end;
importing that file into a fresh deck gives a card whose term is the character
U+FFFD, the bytes ef bf bd, not the byte ff. -/
theorem export_import_invalid_utf8 :
    Raw.encode [⟨[0xff], [0x78], 0⟩] =
      "\x7b\"cards\":[\x7b\"term\":\"\\ufffd\",\"definition\":\"x\"\x7d]\x7d" ∧
    ∃ s2,
      importAction textJson "deck.json" (initial [] fun p =>
        if p = "deck.json" then .regular (Raw.encode [⟨[0xff], [0x78], 0⟩] ++ "\n")
        else .missing) = .ok s2 ∧
      s2.cards.map Raw.ofCard = [⟨[0xef, 0xbf, 0xbd], [0x78], 0⟩] ∧
      s2.cards.map Raw.ofCard ≠ [⟨[0xff], [0x78], 0⟩] :=
  ⟨by decide, _, rfl, by decide, by decide⟩

end FlashCards
